import Mathlib

/-!
Verification of the `anothercache` in-process key/value cache.

The development shallowly embeds the TypeScript sources: JS runtime values
are modelled by `JSValue` (numbers as integers plus a NaN marker; floats are
outside the model), `Map` objects by insertion-ordered association lists,
and `Date.now()` by an explicit `now : Nat` argument threaded through the
operations.  Stateful operations return the result paired with the updated
store.  Optional numeric configuration fields are `Option Nat`, and the
JavaScript truthiness tests the sources apply to them (`if (maxBytes)`,
`ttl ? … : undefined`) are modelled explicitly, treating `0` as falsy.
-/

namespace AnotherCache

/-- Model of the JavaScript runtime values the cache stores and inspects.
Numbers are modelled as integers together with a distinguished `nan`
(IEEE floats are outside the model); objects are insertion-ordered field
lists, as produced by object literals and spreads. -/
inductive JSValue where
  | num (n : Int)
  | nan
  | str (s : String)
  | bool (b : Bool)
  | null
  | arr (elems : List JSValue)
  | obj (fields : List (String × JSValue))

mutual

/-- Decidable equality on `JSValue` (structural, as for the model's use of
values as `Map` keys and in array deduplication witnesses). -/
def decEqJSValue : (a b : JSValue) → Decidable (a = b)
  | .num x, .num y =>
    if h : x = y then isTrue (by rw [h]) else isFalse (by intro hc; cases hc; exact h rfl)
  | .num _, .nan => isFalse nofun
  | .num _, .str _ => isFalse nofun
  | .num _, .bool _ => isFalse nofun
  | .num _, .null => isFalse nofun
  | .num _, .arr _ => isFalse nofun
  | .num _, .obj _ => isFalse nofun
  | .nan, .num _ => isFalse nofun
  | .nan, .nan => isTrue rfl
  | .nan, .str _ => isFalse nofun
  | .nan, .bool _ => isFalse nofun
  | .nan, .null => isFalse nofun
  | .nan, .arr _ => isFalse nofun
  | .nan, .obj _ => isFalse nofun
  | .str _, .num _ => isFalse nofun
  | .str _, .nan => isFalse nofun
  | .str x, .str y =>
    if h : x = y then isTrue (by rw [h]) else isFalse (by intro hc; cases hc; exact h rfl)
  | .str _, .bool _ => isFalse nofun
  | .str _, .null => isFalse nofun
  | .str _, .arr _ => isFalse nofun
  | .str _, .obj _ => isFalse nofun
  | .bool _, .num _ => isFalse nofun
  | .bool _, .nan => isFalse nofun
  | .bool _, .str _ => isFalse nofun
  | .bool x, .bool y =>
    if h : x = y then isTrue (by rw [h]) else isFalse (by intro hc; cases hc; exact h rfl)
  | .bool _, .null => isFalse nofun
  | .bool _, .arr _ => isFalse nofun
  | .bool _, .obj _ => isFalse nofun
  | .null, .num _ => isFalse nofun
  | .null, .nan => isFalse nofun
  | .null, .str _ => isFalse nofun
  | .null, .bool _ => isFalse nofun
  | .null, .null => isTrue rfl
  | .null, .arr _ => isFalse nofun
  | .null, .obj _ => isFalse nofun
  | .arr _, .num _ => isFalse nofun
  | .arr _, .nan => isFalse nofun
  | .arr _, .str _ => isFalse nofun
  | .arr _, .bool _ => isFalse nofun
  | .arr _, .null => isFalse nofun
  | .arr xs, .arr ys =>
    match decEqJSList xs ys with
    | isTrue h => isTrue (by rw [h])
    | isFalse h => isFalse (by intro hc; cases hc; exact h rfl)
  | .arr _, .obj _ => isFalse nofun
  | .obj _, .num _ => isFalse nofun
  | .obj _, .nan => isFalse nofun
  | .obj _, .str _ => isFalse nofun
  | .obj _, .bool _ => isFalse nofun
  | .obj _, .null => isFalse nofun
  | .obj _, .arr _ => isFalse nofun
  | .obj fs, .obj gs =>
    match decEqJSFields fs gs with
    | isTrue h => isTrue (by rw [h])
    | isFalse h => isFalse (by intro hc; cases hc; exact h rfl)

/-- Decidable equality on lists of values. -/
def decEqJSList : (xs ys : List JSValue) → Decidable (xs = ys)
  | [], [] => isTrue rfl
  | [], _ :: _ => isFalse nofun
  | _ :: _, [] => isFalse nofun
  | x :: xs, y :: ys =>
    match decEqJSValue x y with
    | isFalse h => isFalse (by intro hc; cases hc; exact h rfl)
    | isTrue h1 =>
      match decEqJSList xs ys with
      | isTrue h2 => isTrue (by rw [h1, h2])
      | isFalse h2 => isFalse (by intro hc; cases hc; exact h2 rfl)

/-- Decidable equality on field lists of objects. -/
def decEqJSFields : (fs gs : List (String × JSValue)) → Decidable (fs = gs)
  | [], [] => isTrue rfl
  | [], _ :: _ => isFalse nofun
  | _ :: _, [] => isFalse nofun
  | (k1, v1) :: fs, (k2, v2) :: gs =>
    if hk : k1 = k2 then
      match decEqJSValue v1 v2 with
      | isFalse h => isFalse (by intro hc; cases hc; exact h rfl)
      | isTrue hv =>
        match decEqJSFields fs gs with
        | isTrue ht => isTrue (by rw [hk, hv, ht])
        | isFalse ht => isFalse (by intro hc; cases hc; exact ht rfl)
    else isFalse (by intro hc; cases hc; exact hk rfl)

end

instance : DecidableEq JSValue := decEqJSValue

/-- The result of JavaScript `typeof` on a modelled value (`typeof null`
and `typeof` of arrays and objects are all the string `object`). -/
def jsTypeof : JSValue → String
  | .num _ => "number"
  | .nan => "number"
  | .str _ => "string"
  | .bool _ => "boolean"
  | .null => "object"
  | .arr _ => "object"
  | .obj _ => "object"

/-- `Array.isArray`. -/
def isArray : JSValue → Bool
  | .arr _ => true
  | _ => false

/-! ### Decimal strings

`String(n)` and `Number(s)` as used by the numeric `merge` branch.  Integers
print as their usual decimal representation; parsing accepts an optional
leading minus followed by decimal digits and yields `none` for any other
shape (the model's stand-in for `NaN`). -/

/-- Most-significant-first decimal digits, accumulator form.  The first
argument is fuel bounding the number of divisions; any fuel of at least
the number being converted suffices (each division by 10 strictly
decreases a positive number), and `digitsAux_fuel` below shows the result
does not depend on the fuel chosen. -/
def digitsAux : Nat → Nat → List Nat → List Nat
  | _, 0, acc => acc
  | 0, _ + 1, acc => acc
  | fuel + 1, n + 1, acc => digitsAux fuel ((n + 1) / 10) ((n + 1) % 10 :: acc)

/-- Decimal digits of a natural number, most significant first. -/
def natDigits (n : Nat) : List Nat :=
  if n = 0 then [0] else digitsAux n n []

/-- Value of a most-significant-first digit list. -/
def ofDigits (ds : List Nat) : Nat :=
  ds.foldl (fun a d => 10 * a + d) 0

/-- The character for a decimal digit. -/
def digitChar (d : Nat) : Char :=
  Char.ofNat (48 + d)

/-- `String(n)` for a natural number. -/
def natToString (n : Nat) : String :=
  String.mk ((natDigits n).map digitChar)

/-- `String(i)` for an integer. -/
def intToString (i : Int) : String :=
  if i < 0 then "-" ++ natToString i.natAbs else natToString i.natAbs

/-- Numeric value of a decimal digit character, if it is one. -/
def charDigit (c : Char) : Option Nat :=
  if 48 ≤ c.toNat ∧ c.toNat ≤ 57 then some (c.toNat - 48) else none

/-- Parse a run of decimal digit characters. -/
def parseDigits : List Char → Option (List Nat)
  | [] => some []
  | c :: cs =>
    match charDigit c, parseDigits cs with
    | some d, some ds => some (d :: ds)
    | _, _ => none

/-- Parse a nonempty run of decimal digit characters as a natural number. -/
def parseNatChars : List Char → Option Nat
  | [] => none
  | c :: cs => (parseDigits (c :: cs)).map ofDigits

/-- `Number(s)` on the fragment the cache can produce: an optional leading
minus followed by decimal digits; every other shape is `NaN` (`none`). -/
def jsNumberParse (s : String) : Option Int :=
  match s.data with
  | [] => none
  | c :: cs =>
    if c = '-' then (parseNatChars cs).map (fun n => -(n : Int))
    else (parseNatChars (c :: cs)).map (fun n => (n : Int))

/-- The value `Number(s)` evaluates to: a number, or `NaN`. -/
def jsNumberOfString (s : String) : JSValue :=
  match jsNumberParse s with
  | some n => .num n
  | none => .nan

/-- `String()` applied to the numeric values (`num` or `nan`); the numeric
`merge` branch only ever applies it to those. -/
def numToString : JSValue → String
  | .num n => intToString n
  | .nan => "NaN"
  | _ => ""

/-! ### Size estimator (`src/utils/size.ts`) -/

mutual

/-- `getSizeInBytes`: approximate in-memory byte cost of a value.  Numbers
cost 8, booleans 4, strings 2 per unit, `null` 0; arrays and objects sum
their parts (object keys are strings, so a key costs 2 per unit). -/
def getSizeInBytes : JSValue → Nat
  | .null => 0
  | .num _ => 8
  | .nan => 8
  | .str s => 2 * s.length
  | .bool _ => 4
  | .arr xs => sizeOfList xs
  | .obj fs => sizeOfFields fs

/-- Byte cost of the elements of an array. -/
def sizeOfList : List JSValue → Nat
  | [] => 0
  | v :: rest => getSizeInBytes v + sizeOfList rest

/-- Byte cost of the fields of a plain object. -/
def sizeOfFields : List (String × JSValue) → Nat
  | [] => 0
  | p :: rest => 2 * p.1.length + getSizeInBytes p.2 + sizeOfFields rest

end

/-- `getEntrySize`: key + value + 48 bytes of slot overhead + 16 bytes of
metadata. -/
def getEntrySize (key value : JSValue) : Nat :=
  getSizeInBytes key + getSizeInBytes value + 48 + 16


/-! ### `JSON.stringify` and the merge combinators (`operations/mutate.ts`) -/

/-- Escape quote and backslash characters inside a JSON string literal. -/
def jsonEscape (s : String) : String :=
  String.mk (s.data.foldr
    (fun c acc => if c = '"' ∨ c = '\\' then '\\' :: c :: acc else c :: acc) [])

/-- Join already-rendered pieces with commas. -/
def joinComma : List String → String
  | [] => ""
  | [s] => s
  | s :: rest => s ++ "," ++ joinComma rest

mutual

/-- `JSON.stringify` on the modelled values (`NaN` serialises as `null`). -/
def jsonStringify : JSValue → String
  | .num n => intToString n
  | .nan => "null"
  | .str s => "\"" ++ jsonEscape s ++ "\""
  | .bool true => "true"
  | .bool false => "false"
  | .null => "null"
  | .arr xs => "[" ++ joinComma (jsonStringifyList xs) ++ "]"
  | .obj fs => "\x7b" ++ joinComma (jsonStringifyFields fs) ++ "\x7d"

/-- Rendered elements of an array. -/
def jsonStringifyList : List JSValue → List String
  | [] => []
  | v :: rest => jsonStringify v :: jsonStringifyList rest

/-- Rendered fields of an object. -/
def jsonStringifyFields : List (String × JSValue) → List String
  | [] => []
  | p :: rest =>
    ("\"" ++ jsonEscape p.1 ++ "\":" ++ jsonStringify p.2) :: jsonStringifyFields rest

end

/-- `String()` applied to a primitive, as used by the dedup key.  The dedup
key only applies it to non-objects (and `null`), so the array and object
branches are unreachable there. -/
def jsStringOfPrim : JSValue → String
  | .num n => intToString n
  | .nan => "NaN"
  | .str s => s
  | .bool true => "true"
  | .bool false => "false"
  | .null => "null"
  | .arr _ => ""
  | .obj _ => "[object Object]"

/-- The deduplication key `merge` computes for an array element:
`JSON.stringify(item)` for non-null objects, `String(item)` otherwise. -/
def dedupKey (item : JSValue) : String :=
  if jsTypeof item = "object" ∧ item ≠ JSValue.null then jsonStringify item
  else jsStringOfPrim item

/-- The dedup pass of the array `merge` branch: walk the concatenation,
keep the first element for each dedup key. -/
def dedupPass (seen : List String) : List JSValue → List JSValue
  | [] => []
  | item :: rest =>
    let k := dedupKey item
    if k ∈ seen then dedupPass seen rest
    else item :: dedupPass (k :: seen) rest

/-- Deduplication by value identity, written from the spec's words
("deduplicating by value identity") for comparison with the source's
string-keyed `dedupPass`: keep the first occurrence of each value, where
values are compared as values, not through their string rendering. -/
def dedupByValueSpecAux (seen : List JSValue) : List JSValue → List JSValue
  | [] => []
  | item :: rest =>
    if item ∈ seen then dedupByValueSpecAux seen rest
    else item :: dedupByValueSpecAux (item :: seen) rest

/-- Spec-side value-identity dedup over a whole list. -/
def dedupByValueSpec (items : List JSValue) : List JSValue :=
  dedupByValueSpecAux [] items

/-- Field lookup in an object (first occurrence). -/
def fieldLookup (fs : List (String × JSValue)) (k : String) : Option JSValue :=
  (fs.find? (fun p => p.1 = k)).map (fun p => p.2)

/-- The object spread `{ ...cur, ...upd }`: fields of `cur` in order, with
values overridden by `upd` where present, followed by the fields of `upd`
absent from `cur`, in order. -/
def objOverlay (cur upd : List (String × JSValue)) : List (String × JSValue) :=
  cur.map (fun p => (p.1, (fieldLookup upd p.1).getD p.2)) ++
    upd.filter (fun q => (fieldLookup cur q.1).isNone)

/-- The type-directed combination `merge` performs, dispatched on the
runtime shapes of the current value and the updates: array/array
concatenates (deduplicating unless allowed), string/string and
number/number concatenate (numbers via their decimal strings, reparsed),
object/object spreads, and anything else falls back to the updates. -/
def mergeValues (cur updates : JSValue) (allowDuplicates : Bool) : JSValue :=
  match cur, updates with
  | .arr xs, .arr ys =>
    if allowDuplicates then .arr (xs ++ ys) else .arr (dedupPass [] (xs ++ ys))
  | .str a, .str b => .str (a ++ b)
  | .num a, .num b => jsNumberOfString (numToString (.num a) ++ numToString (.num b))
  | .num a, .nan => jsNumberOfString (numToString (.num a) ++ numToString .nan)
  | .nan, .num b => jsNumberOfString (numToString .nan ++ numToString (.num b))
  | .nan, .nan => jsNumberOfString (numToString .nan ++ numToString .nan)
  | .obj fs, .obj gs => .obj (objOverlay fs gs)
  | _, u => u

/-! ### Association-list model of JavaScript `Map`

Insertion order is observable through `Map` iteration, so the store is a
list of key/value pairs: `set` overwrites in place or appends, `delete`
removes the entry, iteration is list order. -/

/-- First binding for a key. -/
def alistLookup {α β : Type} [DecidableEq α] (st : List (α × β)) (k : α) : Option β :=
  (st.find? (fun p => p.1 = k)).map (fun p => p.2)

/-- `Map.prototype.set`: overwrite in place, or append a new binding. -/
def alistSet {α β : Type} [DecidableEq α] : List (α × β) → α → β → List (α × β)
  | [], k, v => [(k, v)]
  | p :: rest, k, v => if p.1 = k then (k, v) :: rest else p :: alistSet rest k v

/-- `Map.prototype.delete` (the removal part): drop the binding. -/
def alistDelete {α β : Type} [DecidableEq α] : List (α × β) → α → List (α × β)
  | [], _ => []
  | p :: rest, k => if p.1 = k then rest else p :: alistDelete rest k

/-! ### Entry data model and configuration -/

/-- A stored cache entry (`CacheEntry` in `types.ts`): the value plus
creation, expiry and last-access timestamps.  The derived `ttlLeft`/`age`
fields only appear on the object `getEntry` returns, modelled separately. -/
structure CacheEntry where
  value : JSValue
  createdAt : Nat
  expiresAt : Option Nat := none
  lastAccessed : Option Nat := none

instance : DecidableEq CacheEntry := fun a b =>
  decidable_of_iff
    (a.value = b.value ∧ a.createdAt = b.createdAt ∧ a.expiresAt = b.expiresAt ∧
      a.lastAccessed = b.lastAccessed)
    (by cases a; cases b; simp)

/-- The entry-with-metadata object `getEntry` returns: the spread of the
stored entry plus the derived `age` and `ttlLeft` fields. -/
structure EntryInfo where
  value : JSValue
  createdAt : Nat
  expiresAt : Option Nat
  lastAccessed : Option Nat
  age : Int
  ttlLeft : Option Int

/-- Eviction policy (`FIFO` default, `LRU` optional). -/
inductive EvictionPolicy where
  | FIFO
  | LRU
  deriving DecidableEq

/-- The per-instance configuration fields the operations destructure from
the cache object.  `maxEntries = none` models `Infinity`; `maxBytes` and
`ttl` are optional numbers subject to JS truthiness. -/
structure Config where
  maxEntries : Option Nat
  maxBytes : Option Nat
  ttl : Option Nat
  evictionPolicy : EvictionPolicy
  autoDeleteAfterUse : Bool

/-- The storage `Map<K, CacheEntry<V>>`, keys being runtime values. -/
abbrev Store := List (JSValue × CacheEntry)

/-- JS truthiness of an optional number (`undefined` and `0` are falsy). -/
def optTruthy : Option Nat → Bool
  | none => false
  | some n => decide (n ≠ 0)

/-- The read-path expiry test `entry.expiresAt && now > entry.expiresAt`
(an `expiresAt` of `0` is falsy and therefore never counts as expired). -/
def isExpired (e : CacheEntry) (now : Nat) : Bool :=
  match e.expiresAt with
  | none => false
  | some t => decide (t ≠ 0 ∧ t < now)

/-- The `expiresAt` computed at write time: `ttl ? now + ttl : undefined`. -/
def ttlExpiry (ttl : Option Nat) (now : Nat) : Option Nat :=
  match ttl with
  | none => none
  | some t => if t = 0 then none else some (now + t)

/-! ### `set` and eviction (`package/src/operations/set.ts`) -/

/-- The effective access time LRU selection compares:
`entry.lastAccessed ?? entry.createdAt`. -/
def effAccessTime (e : CacheEntry) : Nat :=
  e.lastAccessed.getD e.createdAt

/-- The scan inside `findLRUKey`: carry the best (key, time) so far, keep
an entry only when its access time is strictly smaller. -/
def findLRUAux : JSValue × Nat → Store → JSValue × Nat
  | best, [] => best
  | best, p :: rest =>
    if effAccessTime p.2 < best.2 then findLRUAux (p.1, effAccessTime p.2) rest
    else findLRUAux best rest

/-- `findLRUKey`: the first entry with minimal effective access time, or
`undefined` on an empty store (the initial `oldestTime` is `Infinity`, so
the first entry always replaces it). -/
def findLRUKey : Store → Option JSValue
  | [] => none
  | p :: rest => some (findLRUAux (p.1, effAccessTime p.2) rest).1

/-- The victim `set` selects for one eviction step:
`evictionPolicy === 'LRU' ? findLRUKey(storage) : storage.keys().next().value`. -/
def victimKey (policy : EvictionPolicy) (st : Store) : Option JSValue :=
  match policy with
  | .LRU => findLRUKey st
  | .FIFO => st.head?.map (fun p => p.1)

/-- Membership of the LRU scan result. -/
theorem findLRUAux_mem (l : List (JSValue × CacheEntry)) (best : JSValue × Nat) :
    findLRUAux best l = best ∨ ∃ p ∈ l, findLRUAux best l = (p.1, effAccessTime p.2) := by
  induction l generalizing best with
  | nil => exact Or.inl rfl
  | cons p rest ih =>
    rw [findLRUAux]
    split
    · rcases ih (p.1, effAccessTime p.2) with h | ⟨q, hq, hr⟩
      · exact Or.inr ⟨p, List.mem_cons_self p rest, h⟩
      · exact Or.inr ⟨q, List.mem_cons_of_mem p hq, hr⟩
    · rcases ih best with h | ⟨q, hq, hr⟩
      · exact Or.inl h
      · exact Or.inr ⟨q, List.mem_cons_of_mem p hq, hr⟩

/-- The key `findLRUKey` returns is the key of some stored entry. -/
theorem findLRUKey_mem {st : Store} {k : JSValue} (h : findLRUKey st = some k) :
    ∃ p ∈ st, p.1 = k := by
  match st with
  | [] => exact absurd h (by simp [findLRUKey])
  | p :: rest =>
    rw [findLRUKey, Option.some.injEq] at h
    rcases findLRUAux_mem rest (p.1, effAccessTime p.2) with hb | ⟨q, hq, hr⟩
    · exact ⟨p, List.mem_cons_self p rest, by rw [← h, hb]⟩
    · exact ⟨q, List.mem_cons_of_mem p hq, by rw [← h, hr]⟩

/-- A selected victim is the key of some stored entry. -/
theorem victimKey_mem {policy : EvictionPolicy} {st : Store} {k : JSValue}
    (h : victimKey policy st = some k) : ∃ p ∈ st, p.1 = k := by
  cases policy with
  | LRU => exact findLRUKey_mem h
  | FIFO =>
    match st with
    | [] => exact absurd h (by simp [victimKey])
    | p :: rest =>
      refine ⟨p, List.mem_cons_self p rest, ?_⟩
      simpa [victimKey] using h

/-- Deleting a present key strictly shortens the store. -/
theorem length_alistDelete_lt {α β : Type} [DecidableEq α] {st : List (α × β)} {k : α}
    (h : ∃ p ∈ st, p.1 = k) : (alistDelete st k).length < st.length := by
  induction st with
  | nil => exact absurd h (by simp)
  | cons p rest ih =>
    rw [alistDelete]
    rcases h with ⟨q, hq, hk⟩
    rcases List.mem_cons.mp hq with rfl | hmem
    · rw [if_pos hk]; exact Nat.lt_succ_self _
    · split
      · exact Nat.lt_succ_self _
      · exact Nat.succ_lt_succ (ih ⟨q, hmem, hk⟩)

/-- `getCacheSizeInBytes`: per entry, key size + 48 bytes of overhead +
value size + 16 bytes of metadata, summed over the store. -/
def getCacheSizeInBytes (st : Store) : Nat :=
  st.foldl (fun acc p => acc + getSizeInBytes p.1 + 48 + getSizeInBytes p.2.value + 16) 0

/-- The body of the byte-budget eviction loop of `set`, with explicit fuel
bounding the number of iterations: while the store is nonempty and the
current total plus the incoming entry's size exceeds the budget, remove
the policy's victim — unless no victim exists or the victim is the key
being written, in which case the loop stops and the entry is inserted
anyway.  Every iteration deletes a present key, so fuel of at least the
store's length suffices; `byteEvictFuel_sufficient` below shows the result
does not depend on the fuel chosen beyond that. -/
def byteEvictFuel (policy : EvictionPolicy) (maxBytes : Nat) (key : JSValue)
    (entrySize : Nat) : Nat → Store → Store
  | 0, st => st
  | fuel + 1, st =>
    if st.isEmpty then st
    else if getCacheSizeInBytes st + entrySize ≤ maxBytes then st
    else
      match victimKey policy st with
      | none => st
      | some keyToRemove =>
        if keyToRemove = key then st
        else byteEvictFuel policy maxBytes key entrySize fuel (alistDelete st keyToRemove)

/-- The byte-budget eviction loop, run with its sufficient fuel. -/
def byteEvict (policy : EvictionPolicy) (maxBytes : Nat) (key : JSValue)
    (entrySize : Nat) (st : Store) : Store :=
  byteEvictFuel policy maxBytes key entrySize st.length st

/-- The fuel is irrelevant from the store's length upwards: the loop never
runs out of fuel before its stopping condition holds. -/
theorem byteEvictFuel_sufficient (policy : EvictionPolicy) (maxBytes : Nat)
    (key : JSValue) (entrySize : Nat) : ∀ (fuel fuel2 : Nat) (st : Store),
    st.length ≤ fuel → st.length ≤ fuel2 →
    byteEvictFuel policy maxBytes key entrySize fuel st =
      byteEvictFuel policy maxBytes key entrySize fuel2 st := by
  intro fuel
  induction fuel with
  | zero =>
    intro fuel2 st h1 h2
    have h0 : st = [] := List.length_eq_zero.mp (Nat.le_zero.mp h1)
    subst h0
    cases fuel2 with
    | zero => rfl
    | succ f2 => rfl
  | succ fuel ih =>
    intro fuel2 st h1 h2
    match st, h1, h2 with
    | [], _, _ =>
      cases fuel2 with
      | zero => rfl
      | succ f2 => rfl
    | p :: rest, h1, h2 =>
      cases fuel2 with
      | zero => exact absurd h2 (by simp)
      | succ f2 =>
        rw [byteEvictFuel, byteEvictFuel]
        simp only [List.isEmpty_cons, Bool.false_eq_true, if_false]
        by_cases hfit : getCacheSizeInBytes (p :: rest) + entrySize ≤ maxBytes
        · rw [if_pos hfit, if_pos hfit]
        · rw [if_neg hfit, if_neg hfit]
          rcases hvk : victimKey policy (p :: rest) with _ | keyToRemove
          · simp only [hvk]
          · simp only [hvk]
            by_cases hkey : keyToRemove = key
            · rw [if_pos hkey, if_pos hkey]
            · rw [if_neg hkey, if_neg hkey]
              have hmem := victimKey_mem hvk
              have hlt := length_alistDelete_lt hmem
              exact ih f2 _ (by omega) (by omega)

/-- The entry-count eviction step of `set`: when the store has reached
`maxEntries` and the key is new, remove one victim. -/
def countEvict (policy : EvictionPolicy) (maxEntries : Option Nat) (st : Store)
    (isNewKey : Bool) : Store :=
  if (match maxEntries with | none => false | some m => decide (m ≤ st.length)) && isNewKey then
    match victimKey policy st with
    | some keyToRemove => alistDelete st keyToRemove
    | none => st
  else st

/-- `set`: look up the existing entry, run byte-budget eviction when
`maxBytes` is truthy (else count eviction), then write the entry —
preserving `createdAt` on overwrite, stamping `lastAccessed` under LRU,
and computing `expiresAt` from the TTL. -/
def set (cfg : Config) (st : Store) (key value : JSValue) (now : Nat) : Store :=
  let existingEntry := alistLookup st key
  let isNewKey := existingEntry.isNone
  let st1 :=
    if optTruthy cfg.maxBytes then
      byteEvict cfg.evictionPolicy (cfg.maxBytes.getD 0) key (getEntrySize key value) st
    else
      countEvict cfg.evictionPolicy cfg.maxEntries st isNewKey
  let entry : CacheEntry :=
    { value := value
      createdAt := (existingEntry.map (fun e => e.createdAt)).getD now
      lastAccessed :=
        if cfg.evictionPolicy = EvictionPolicy.LRU then some now
        else existingEntry.bind (fun e => e.lastAccessed)
      expiresAt := ttlExpiry cfg.ttl now }
  alistSet st1 key entry

/-- `setMany`: apply `set` to each pair in order. -/
def setMany (cfg : Config) (st : Store) (entries : List (JSValue × JSValue)) (now : Nat) :
    Store :=
  entries.foldl (fun acc p => set cfg acc p.1 p.2 now) st

/-! ### Read path (`src/operations/get.ts`) -/

/-- Stamp `entry.lastAccessed = now` on the stored entry for `key`. -/
def touchAccess (st : Store) (key : JSValue) (now : Nat) : Store :=
  st.map (fun p => if p.1 = key then (p.1, { p.2 with lastAccessed := some now }) else p)

/-- `get`: report absence on a miss; delete and report absence on an
expired entry; otherwise return the value, stamping `lastAccessed` under
LRU (unless auto-delete is on) and deleting the entry when auto-delete
after use is enabled. -/
def get (cfg : Config) (st : Store) (key : JSValue) (now : Nat) :
    Option JSValue × Store :=
  match alistLookup st key with
  | none => (none, st)
  | some entry =>
    if isExpired entry now then (none, alistDelete st key)
    else
      let value := entry.value
      let st1 :=
        if cfg.evictionPolicy = EvictionPolicy.LRU ∧ cfg.autoDeleteAfterUse = false then
          touchAccess st key now
        else st
      let st2 := if cfg.autoDeleteAfterUse then alistDelete st1 key else st1
      (some value, st2)

/-- `has`: like `get` but returns a boolean and performs no LRU stamp or
auto-delete (it still removes an expired entry). -/
def has (cfg : Config) (st : Store) (key : JSValue) (now : Nat) : Bool × Store :=
  match alistLookup st key with
  | none => (false, st)
  | some entry =>
    if isExpired entry now then (false, alistDelete st key)
    else (true, st)

/-- `getEntry`: the stored entry spread together with the derived
`age = now - createdAt` and `ttlLeft = expiresAt ? expiresAt - now :
undefined`; removes an expired entry like `get`. -/
def getEntry (cfg : Config) (st : Store) (key : JSValue) (now : Nat) :
    Option EntryInfo × Store :=
  match alistLookup st key with
  | none => (none, st)
  | some entry =>
    if isExpired entry now then (none, alistDelete st key)
    else
      (some { value := entry.value
              createdAt := entry.createdAt
              expiresAt := entry.expiresAt
              lastAccessed := entry.lastAccessed
              age := (now : Int) - entry.createdAt
              ttlLeft :=
                match entry.expiresAt with
                | none => none
                | some t => if t = 0 then none else some ((t : Int) - now) }, st)

/-- `peek`: report the unexpired value; expired or missing entries give
absence, and the store is returned untouched in every branch. -/
def peek (cfg : Config) (st : Store) (key : JSValue) (now : Nat) :
    Option JSValue × Store :=
  match alistLookup st key with
  | none => (none, st)
  | some entry =>
    if isExpired entry now then (none, st)
    else (some entry.value, st)

/-! ### Delete operations (`operations/delete.ts`) -/

/-- `del`: `storage.delete(key)` — returns whether a binding existed (no
expiry check), and the store without it. -/
def del (st : Store) (key : JSValue) : Bool × Store :=
  ((alistLookup st key).isSome, alistDelete st key)

/-- `deleteMany`: delete each key, counting the ones that existed. -/
def deleteMany (st : Store) (keys : List JSValue) : Nat × Store :=
  keys.foldl
    (fun acc k =>
      let r := del acc.2 k
      (acc.1 + (if r.1 then 1 else 0), r.2))
    (0, st)

/-- `clear`: remove everything unconditionally. -/
def clear (st : Store) : Store := []

/-! ### Mutation operators (`package/src/operations/mutate.ts`) -/

/-- `mutate`: read through `get`; on absence return absence, otherwise
write the updated value back through the normal `set` path and return it. -/
def mutate (cfg : Config) (st : Store) (key : JSValue) (updater : JSValue → JSValue)
    (now : Nat) : Option JSValue × Store :=
  let r := get cfg st key now
  match r.1 with
  | none => (none, r.2)
  | some currentValue =>
    let newValue := updater currentValue
    (some newValue, set cfg r.2 key newValue now)

/-- The addition `increment`'s updater performs.  The TS operator is
declared on caches of numbers, so the updater only ever sees numbers;
`NaN` propagates and other shapes are not modelled beyond it. -/
def jsAddNum (v : JSValue) (amount : Int) : JSValue :=
  match v with
  | .num n => .num (n + amount)
  | _ => .nan

/-- `increment`: `mutate` specialised to `value + amount`. -/
def increment (cfg : Config) (st : Store) (key : JSValue) (amount : Int) (now : Nat) :
    Option JSValue × Store :=
  mutate cfg st key (fun v => jsAddNum v amount) now

/-- `decrement`: `mutate` specialised to `value - amount`. -/
def decrement (cfg : Config) (st : Store) (key : JSValue) (amount : Int) (now : Nat) :
    Option JSValue × Store :=
  mutate cfg st key (fun v => jsAddNum v (-amount)) now

/-- The spread `[...value, ...items]` of `append`'s updater.  The TS
operator is declared on caches of arrays, so non-array values are
unreachable there. -/
def appendUpdater (items : List JSValue) (v : JSValue) : JSValue :=
  match v with
  | .arr xs => .arr (xs ++ items)
  | other => other

/-- `append`: `mutate` specialised to sequence concatenation. -/
def append (cfg : Config) (st : Store) (key : JSValue) (items : List JSValue) (now : Nat) :
    Option JSValue × Store :=
  mutate cfg st key (appendUpdater items) now

/-- `merge` (the operations-layer function): read through `get`; on
absence return absence; otherwise combine by runtime type with
`allowDuplicates = options?.allowDuplicates ?? false`, write the result
back through `set` and return it. -/
def merge (cfg : Config) (st : Store) (key updates : JSValue) (options : Option Bool)
    (now : Nat) : Option JSValue × Store :=
  let allowDuplicates := options.getD false
  let r := get cfg st key now
  match r.1 with
  | none => (none, r.2)
  | some currentValue =>
    let mergedValue := mergeValues currentValue updates allowDuplicates
    (some mergedValue, set cfg r.2 key mergedValue now)

/-- The option resolution in `Cache.merge`:
`options?.allowDuplicates ?? this.mergeAllowDuplicates ?? false`. -/
def resolveAllowDuplicates (perCall instanceDefault : Option Bool) : Bool :=
  perCall.getD (instanceDefault.getD false)

/-- `Cache.merge`: resolve the duplicate allowance from the per-call
option and the instance default, then call the operations-layer `merge`. -/
def cacheMerge (cfg : Config) (mergeAllowDuplicates : Option Bool) (st : Store)
    (key updates : JSValue) (perCall : Option Bool) (now : Nat) :
    Option JSValue × Store :=
  merge cfg st key updates (some (resolveAllowDuplicates perCall mergeAllowDuplicates)) now

/-! ### Expiry sweep (`operations/cleanup.ts`) -/

/-- `cleanupExpired`: a no-op returning 0 when the TTL is not truthy;
otherwise scan all entries, delete every expired one, and return the
count removed. -/
def cleanupExpired (cfg : Config) (st : Store) (now : Nat) : Nat × Store :=
  if optTruthy cfg.ttl = false then (0, st)
  else
    ((st.filter (fun p => isExpired p.2 now)).length,
      st.filter (fun p => !isExpired p.2 now))

/-! ### Utility queries (`operations/utility.ts`) — each sweeps first -/

/-- `size`: sweep, then the number of entries. -/
def size (cfg : Config) (st : Store) (now : Nat) : Nat × Store :=
  let r := cleanupExpired cfg st now
  (r.2.length, r.2)

/-- `sizeInBytes`: sweep, then the whole-store byte estimate. -/
def sizeInBytes (cfg : Config) (st : Store) (now : Nat) : Nat × Store :=
  let r := cleanupExpired cfg st now
  (getCacheSizeInBytes r.2, r.2)

/-- `keys`: sweep, then the keys in insertion order. -/
def keys (cfg : Config) (st : Store) (now : Nat) : List JSValue × Store :=
  let r := cleanupExpired cfg st now
  (r.2.map (fun p => p.1), r.2)

/-- `values`: sweep, then the values in insertion order. -/
def values (cfg : Config) (st : Store) (now : Nat) : List JSValue × Store :=
  let r := cleanupExpired cfg st now
  (r.2.map (fun p => p.2.value), r.2)

/-- `entries`: sweep, then the key/value pairs in insertion order. -/
def entries (cfg : Config) (st : Store) (now : Nat) :
    List (JSValue × JSValue) × Store :=
  let r := cleanupExpired cfg st now
  (r.2.map (fun p => (p.1, p.2.value)), r.2)

/-- `isEmpty`: whether `size` is zero. -/
def isEmpty (cfg : Config) (st : Store) (now : Nat) : Bool × Store :=
  let r := size cfg st now
  (decide (r.1 = 0), r.2)

/-! ### Alarm registry (`src/utils/registry.ts`) and instance lifecycle

Instances are identified by opaque ids; the registry's `instanceInfo` map
is an association list from instance id to its bookkeeping record.  The
`WeakSet` of instances has no observable accessor and is not modelled. -/

/-- The bookkeeping record the registry stores per instance. -/
structure CacheInstanceInfo where
  createdAt : Nat
  lastSizeCheck : Nat

/-- The registry's observable state: the `instanceInfo` map. -/
structure RegistryState where
  instanceInfo : List (Nat × CacheInstanceInfo)

/-- `CacheRegistry.register`: record the instance with a fresh info
record. -/
def registryRegister (r : RegistryState) (instance_ : Nat) (now : Nat) : RegistryState :=
  { instanceInfo :=
      alistSet r.instanceInfo instance_ { createdAt := now, lastSizeCheck := 0 } }

/-- `CacheRegistry.unregister`: drop the instance's info record. -/
def registryUnregister (r : RegistryState) (instance_ : Nat) : RegistryState :=
  { instanceInfo := alistDelete r.instanceInfo instance_ }

/-- `CacheRegistry.getInstanceCount`: the size of `instanceInfo`. -/
def getInstanceCount (r : RegistryState) : Nat :=
  r.instanceInfo.length

/-- The per-instance mutable state of a `Cache` object: its storage, its
cleanup timer handle, and its registered event listeners (listeners are
modelled as opaque ids — only their presence matters here). -/
structure CacheState where
  storage : Store
  cleanupTimer : Option Nat
  eventListeners : List Nat

/-- `Cache.stopCleanup`: clear the interval and drop the handle. -/
def stopCleanup (s : CacheState) : CacheState :=
  { s with cleanupTimer := none }

/-- `Cache.destroy`: stop the cleanup timer, clear the storage, clear the
event listeners, and unregister from the registry. -/
def destroy (s : CacheState) (r : RegistryState) (selfId : Nat) :
    CacheState × RegistryState :=
  let s1 := stopCleanup s
  let s2 := { s1 with storage := clear s1.storage }
  let s3 := { s2 with eventListeners := [] }
  (s3, registryUnregister r selfId)

/-- `Cache.set` at the instance level: runs the storage-level `set` and
emits an event; it touches neither the cleanup timer nor the registry. -/
def cacheSet (cfg : Config) (s : CacheState) (r : RegistryState)
    (key value : JSValue) (now : Nat) : CacheState × RegistryState :=
  ({ s with storage := set cfg s.storage key value now }, r)

/-- A sequence of subsequent `Cache.set` calls. -/
def cacheSets (cfg : Config) (sr : CacheState × RegistryState)
    (writes : List (JSValue × JSValue × Nat)) : CacheState × RegistryState :=
  writes.foldl (fun acc w => cacheSet cfg acc.1 acc.2 w.1 w.2.1 w.2.2) sr

/-! ### Association-list lemmas -/

/-- The keys of a store, in insertion order. -/
def keysOf {α β : Type} (st : List (α × β)) : List α :=
  st.map (fun p => p.1)

theorem alistLookup_alistSet_self {α β : Type} [DecidableEq α]
    (st : List (α × β)) (k : α) (v : β) : alistLookup (alistSet st k v) k = some v := by
  induction st with
  | nil => simp [alistSet, alistLookup]
  | cons p rest ih =>
    rw [alistSet]
    split
    · simp [alistLookup]
    · rename_i hne
      rw [alistLookup, List.find?_cons_of_neg _ (by simpa using hne)]
      exact ih

theorem alistLookup_eq_none_iff {α β : Type} [DecidableEq α]
    {st : List (α × β)} {k : α} : alistLookup st k = none ↔ ∀ p ∈ st, p.1 ≠ k := by
  simp [alistLookup, List.find?_eq_none]

theorem mem_of_alistLookup_eq_some {α β : Type} [DecidableEq α]
    {st : List (α × β)} {k : α} {v : β} (h : alistLookup st k = some v) : (k, v) ∈ st := by
  rw [alistLookup, Option.map_eq_some'] at h
  obtain ⟨p, hp, hv⟩ := h
  have hmem := List.mem_of_find?_eq_some hp
  have hk := List.find?_some hp
  simp only [decide_eq_true_eq] at hk
  cases p
  cases hk
  cases hv
  exact hmem

theorem alistDelete_of_forall_ne {α β : Type} [DecidableEq α]
    {st : List (α × β)} {k : α} (h : ∀ p ∈ st, p.1 ≠ k) : alistDelete st k = st := by
  induction st with
  | nil => rfl
  | cons p rest ih =>
    rw [alistDelete, if_neg (h p (List.mem_cons_self p rest))]
    rw [ih (fun q hq => h q (List.mem_cons_of_mem p hq))]

theorem mem_of_mem_alistDelete {α β : Type} [DecidableEq α]
    {st : List (α × β)} {k : α} {p : α × β} (h : p ∈ alistDelete st k) : p ∈ st := by
  induction st with
  | nil => exact absurd h (by simp [alistDelete])
  | cons q rest ih =>
    rw [alistDelete] at h
    split at h
    · exact List.mem_cons_of_mem q h
    · rcases List.mem_cons.mp h with rfl | hmem
      · exact List.mem_cons_self p rest
      · exact List.mem_cons_of_mem q (ih hmem)

theorem length_alistDelete_of_isSome {α β : Type} [DecidableEq α]
    {st : List (α × β)} {k : α} (h : (alistLookup st k).isSome) :
    (alistDelete st k).length + 1 = st.length := by
  induction st with
  | nil => simp [alistLookup] at h
  | cons p rest ih =>
    rw [alistDelete]
    by_cases hk : p.1 = k
    · rw [if_pos hk]; rfl
    · rw [if_neg hk, List.length_cons, List.length_cons]
      rw [alistLookup, List.find?_cons_of_neg _ (by simpa using hk)] at h
      exact congrArg Nat.succ (ih h)

theorem lookup_eq_none_of_not_mem_keysOf {α β : Type} [DecidableEq α]
    {st : List (α × β)} {k : α} (h : k ∉ keysOf st) : alistLookup st k = none := by
  rw [alistLookup_eq_none_iff]
  intro p hp hpk
  exact h (hpk ▸ List.mem_map_of_mem (fun q => q.1) hp)

theorem mem_keysOf_alistSet {α β : Type} [DecidableEq α]
    {st : List (α × β)} {k a : α} {v : β} (h : a ∈ keysOf (alistSet st k v)) :
    a = k ∨ a ∈ keysOf st := by
  induction st with
  | nil => simpa [alistSet, keysOf] using h
  | cons p rest ih =>
    rw [alistSet] at h
    split at h
    · rcases List.mem_cons.mp h with rfl | hmem
      · exact Or.inl rfl
      · exact Or.inr (List.mem_cons_of_mem _ hmem)
    · rcases List.mem_cons.mp h with rfl | hmem
      · exact Or.inr (List.mem_cons_self _ _)
      · rcases ih hmem with hk | hmem2
        · exact Or.inl hk
        · exact Or.inr (List.mem_cons_of_mem _ hmem2)

theorem nodup_keysOf_alistSet {α β : Type} [DecidableEq α]
    {st : List (α × β)} {k : α} {v : β} (h : (keysOf st).Nodup) :
    (keysOf (alistSet st k v)).Nodup := by
  induction st with
  | nil => simp [alistSet, keysOf]
  | cons p rest ih =>
    rw [keysOf, List.map_cons, List.nodup_cons] at h
    rw [alistSet]
    split
    · rename_i hk
      rw [keysOf, List.map_cons, List.nodup_cons]
      exact ⟨by rw [← hk]; exact h.1, h.2⟩
    · rename_i hk
      rw [keysOf, List.map_cons, List.nodup_cons]
      refine ⟨fun hmem => ?_, ih h.2⟩
      rcases mem_keysOf_alistSet hmem with heq | hmem2
      · exact hk heq
      · exact h.1 hmem2

theorem alistLookup_alistDelete_self {α β : Type} [DecidableEq α]
    {st : List (α × β)} {k : α} (h : (keysOf st).Nodup) :
    alistLookup (alistDelete st k) k = none := by
  induction st with
  | nil => rfl
  | cons p rest ih =>
    rw [keysOf, List.map_cons, List.nodup_cons] at h
    rw [alistDelete]
    split
    · rename_i hk
      apply lookup_eq_none_of_not_mem_keysOf
      rw [← hk]
      exact h.1
    · rename_i hk
      rw [alistLookup, List.find?_cons_of_neg _ (by simpa using hk)]
      exact ih h.2

/-! ### Lemmas about `set` and eviction -/

theorem alistLookup_set_self (cfg : Config) (st : Store) (key value : JSValue)
    (now : Nat) :
    alistLookup (set cfg st key value now) key =
      some { value := value
             createdAt := ((alistLookup st key).map (fun e => e.createdAt)).getD now
             lastAccessed :=
               if cfg.evictionPolicy = EvictionPolicy.LRU then some now
               else (alistLookup st key).bind (fun e => e.lastAccessed)
             expiresAt := ttlExpiry cfg.ttl now } :=
  alistLookup_alistSet_self _ _ _

/-- A nonempty store always yields a victim. -/
theorem victimKey_isSome {policy : EvictionPolicy} {st : Store} (h : st ≠ []) :
    (victimKey policy st).isSome := by
  match st with
  | [] => exact absurd rfl h
  | p :: rest =>
    cases policy with
    | LRU => rw [victimKey, findLRUKey]; rfl
    | FIFO => rfl

/-- When every stored key differs from the incoming key and the incoming
entry alone exceeds the budget, the byte-eviction loop removes
everything. -/
theorem byteEvictFuel_clears (policy : EvictionPolicy) (maxB : Nat) (key : JSValue)
    (es : Nat) :
    ∀ (fuel : Nat) (st : Store), st.length ≤ fuel → (∀ p ∈ st, p.1 ≠ key) → maxB < es →
      byteEvictFuel policy maxB key es fuel st = [] := by
  intro fuel
  induction fuel with
  | zero =>
    intro st hlen _ _
    exact List.length_eq_zero.mp (Nat.le_zero.mp hlen)
  | succ fuel ih =>
    intro st hlen hne hlt
    rw [byteEvictFuel]
    split
    · rename_i hemp
      exact List.isEmpty_iff.mp hemp
    · rename_i hemp
      split
      · rename_i hfits
        exact absurd hfits (by omega)
      · split
        · rename_i hnone
          have hsome := @victimKey_isSome policy st (List.isEmpty_iff.not.mp hemp)
          rw [hnone] at hsome
          exact absurd hsome (by simp)
        · rename_i keyToRemove hv
          obtain ⟨p, hp, hpk⟩ := victimKey_mem hv
          rw [if_neg (hpk ▸ hne p hp)]
          refine ih (alistDelete st keyToRemove) ?_ ?_ hlt
          · have hdel := length_alistDelete_lt ⟨p, hp, hpk⟩
            omega
          · exact fun q hq => hne q (mem_of_mem_alistDelete hq)

/-- When every stored key differs from the incoming key and the incoming
entry alone exceeds the budget, the byte-eviction loop removes
everything. -/
theorem byteEvict_clears {policy : EvictionPolicy} {maxB : Nat} {key : JSValue}
    {es : Nat} {st : Store} (hne : ∀ p ∈ st, p.1 ≠ key) (hlt : maxB < es) :
    byteEvict policy maxB key es st = [] :=
  byteEvictFuel_clears policy maxB key es st.length st le_rfl hne hlt

/-- With a truthy byte budget smaller than the incoming entry's estimated
size and a key not yet stored, `set` clears the store and leaves exactly
the new entry. -/
theorem set_oversized_singleton {cfg : Config} {st : Store} {key value : JSValue}
    {now b : Nat} (hb : cfg.maxBytes = some b) (hb0 : b ≠ 0)
    (hnew : ∀ p ∈ st, p.1 ≠ key) (hover : b < getEntrySize key value) :
    set cfg st key value now =
      [(key, { value := value, createdAt := now,
               lastAccessed :=
                 if cfg.evictionPolicy = EvictionPolicy.LRU then some now else none,
               expiresAt := ttlExpiry cfg.ttl now })] := by
  have hmiss : alistLookup st key = none :=
    alistLookup_eq_none_iff.mpr hnew
  have htruthy : optTruthy cfg.maxBytes = true := by
    rw [hb, optTruthy]
    simpa using hb0
  have hclear :
      byteEvict cfg.evictionPolicy (cfg.maxBytes.getD 0) key (getEntrySize key value) st
        = [] := by
    rw [hb]
    exact byteEvict_clears hnew hover
  rw [set]
  rw [hmiss, htruthy]
  simp only [if_pos rfl, hclear]
  rfl

/-! ### Lemmas about the read path -/

theorem get_missing {cfg : Config} {st : Store} {key : JSValue} {now : Nat}
    (h : alistLookup st key = none) : get cfg st key now = (none, st) := by
  simp [get, h]

theorem get_expired {cfg : Config} {st : Store} {key : JSValue} {now : Nat}
    {e : CacheEntry} (h : alistLookup st key = some e)
    (hx : isExpired e now = true) : get cfg st key now = (none, alistDelete st key) := by
  simp [get, h, hx]

theorem get_live_fst {cfg : Config} {st : Store} {key : JSValue} {now : Nat}
    {e : CacheEntry} (h : alistLookup st key = some e)
    (hx : isExpired e now = false) : (get cfg st key now).1 = some e.value := by
  simp only [get, h, hx, Bool.false_eq_true, if_false]

theorem has_missing {cfg : Config} {st : Store} {key : JSValue} {now : Nat}
    (h : alistLookup st key = none) : has cfg st key now = (false, st) := by
  simp [has, h]

theorem has_expired {cfg : Config} {st : Store} {key : JSValue} {now : Nat}
    {e : CacheEntry} (h : alistLookup st key = some e)
    (hx : isExpired e now = true) : has cfg st key now = (false, alistDelete st key) := by
  simp [has, h, hx]

theorem getEntry_missing {cfg : Config} {st : Store} {key : JSValue} {now : Nat}
    (h : alistLookup st key = none) : getEntry cfg st key now = (none, st) := by
  simp [getEntry, h]

theorem getEntry_expired {cfg : Config} {st : Store} {key : JSValue} {now : Nat}
    {e : CacheEntry} (h : alistLookup st key = some e)
    (hx : isExpired e now = true) :
    getEntry cfg st key now = (none, alistDelete st key) := by
  simp [getEntry, h, hx]

theorem peek_store_unchanged (cfg : Config) (st : Store) (key : JSValue) (now : Nat) :
    (peek cfg st key now).2 = st := by
  rw [peek]
  rcases alistLookup st key with _ | e
  · rfl
  · dsimp only
    split <;> rfl

/-! ### Lemmas about the sweep -/

theorem cleanupExpired_no_ttl {cfg : Config} {st : Store} {now : Nat}
    (h : optTruthy cfg.ttl = false) : cleanupExpired cfg st now = (0, st) := by
  simp [cleanupExpired, h]

theorem cleanupExpired_removes_expired {cfg : Config} {st : Store} {now : Nat}
    (h : optTruthy cfg.ttl = true) :
    ∀ p ∈ (cleanupExpired cfg st now).2, isExpired p.2 now = false := by
  intro p hp
  rw [cleanupExpired, if_neg (by simp [h])] at hp
  simpa using (List.mem_filter.mp hp).2

theorem cleanupExpired_count {cfg : Config} {st : Store} {now : Nat}
    (h : optTruthy cfg.ttl = true) :
    (cleanupExpired cfg st now).1 = (st.filter (fun p => isExpired p.2 now)).length := by
  rw [cleanupExpired, if_neg (by simp [h])]

/-! ### Decimal-string lemmas for the numeric merge -/

theorem digitsAux_acc : ∀ (fuel n : Nat) (acc : List Nat), n ≤ fuel →
    digitsAux fuel n acc = digitsAux fuel n [] ++ acc := by
  intro fuel
  induction fuel with
  | zero =>
    intro n acc hn
    have h0 : n = 0 := Nat.le_zero.mp hn
    subst h0
    rfl
  | succ fuel ih =>
    intro n acc hn
    match n with
    | 0 => rfl
    | m + 1 =>
      rw [digitsAux, digitsAux]
      have hq : (m + 1) / 10 ≤ fuel := by
        have := Nat.div_lt_self (Nat.succ_pos m) (show 1 < 10 by decide)
        omega
      rw [ih _ ((m + 1) % 10 :: acc) hq, ih _ [(m + 1) % 10] hq]
      simp

theorem digitsAux_fuel : ∀ (fuel fuel2 n : Nat) (acc : List Nat), n ≤ fuel → n ≤ fuel2 →
    digitsAux fuel n acc = digitsAux fuel2 n acc := by
  intro fuel
  induction fuel with
  | zero =>
    intro fuel2 n acc h1 h2
    have h0 : n = 0 := Nat.le_zero.mp h1
    subst h0
    cases fuel2 <;> rfl
  | succ fuel ih =>
    intro fuel2 n acc h1 h2
    match n with
    | 0 => cases fuel2 <;> rfl
    | m + 1 =>
      cases fuel2 with
      | zero => omega
      | succ f2 =>
        rw [digitsAux, digitsAux]
        have hq : (m + 1) / 10 ≤ fuel := by
          have := Nat.div_lt_self (Nat.succ_pos m) (show 1 < 10 by decide)
          omega
        have hq2 : (m + 1) / 10 ≤ f2 := by
          have := Nat.div_lt_self (Nat.succ_pos m) (show 1 < 10 by decide)
          omega
        exact ih f2 _ _ hq hq2

theorem foldl_digits_from (ds : List Nat) : ∀ a : Nat,
    ds.foldl (fun x d => 10 * x + d) a = a * 10 ^ ds.length + ofDigits ds := by
  induction ds with
  | nil => intro a; simp [ofDigits]
  | cons d rest ih =>
    intro a
    have h1 : ofDigits (d :: rest) = rest.foldl (fun x e => 10 * x + e) d := by
      rw [ofDigits, List.foldl_cons]
      norm_num
    rw [List.foldl_cons, ih (10 * a + d), h1, ih d, List.length_cons, pow_succ]
    ring

theorem ofDigits_append (xs ys : List Nat) :
    ofDigits (xs ++ ys) = ofDigits xs * 10 ^ ys.length + ofDigits ys := by
  rw [ofDigits, List.foldl_append, foldl_digits_from]
  rfl

theorem ofDigits_digitsAux : ∀ n : Nat, ofDigits (digitsAux n n []) = n := by
  intro n
  induction n using Nat.strong_induction_on with
  | _ n ih =>
    match n with
    | 0 => simp [digitsAux, ofDigits]
    | m + 1 =>
      have hqlt : (m + 1) / 10 < m + 1 := Nat.div_lt_self (Nat.succ_pos m) (by decide)
      rw [digitsAux,
        digitsAux_fuel m ((m + 1) / 10) ((m + 1) / 10) [(m + 1) % 10] (by omega) le_rfl,
        digitsAux_acc ((m + 1) / 10) ((m + 1) / 10) [(m + 1) % 10] le_rfl,
        ofDigits_append, ih _ hqlt]
      have hone : ofDigits [(m + 1) % 10] = (m + 1) % 10 := by simp [ofDigits]
      rw [hone]
      simp only [List.length_singleton, pow_one]
      omega

theorem ofDigits_natDigits (n : Nat) : ofDigits (natDigits n) = n := by
  rw [natDigits]
  split
  · rename_i h
    subst h
    simp [ofDigits]
  · exact ofDigits_digitsAux n

theorem digitsAux_lt_ten : ∀ (n : Nat), ∀ d ∈ digitsAux n n [], d < 10 := by
  intro n
  induction n using Nat.strong_induction_on with
  | _ n ih =>
    match n with
    | 0 => intro d hd; simp [digitsAux] at hd
    | m + 1 =>
      intro d hd
      have hqlt : (m + 1) / 10 < m + 1 := Nat.div_lt_self (Nat.succ_pos m) (by decide)
      rw [digitsAux,
        digitsAux_fuel m ((m + 1) / 10) ((m + 1) / 10) [(m + 1) % 10] (by omega) le_rfl,
        digitsAux_acc ((m + 1) / 10) ((m + 1) / 10) [(m + 1) % 10] le_rfl] at hd
      rcases List.mem_append.mp hd with hmem | hmem
      · exact ih _ hqlt d hmem
      · have hdmod : d = (m + 1) % 10 := by simpa using hmem
        rw [hdmod]
        exact Nat.mod_lt _ (by decide)

theorem natDigits_lt_ten (n : Nat) : ∀ d ∈ natDigits n, d < 10 := by
  rw [natDigits]
  split
  · intro d hd
    have hd0 : d = 0 := by simpa using hd
    omega
  · exact digitsAux_lt_ten n

theorem natDigits_ne_nil (n : Nat) : natDigits n ≠ [] := by
  rw [natDigits]
  split
  · simp
  · rename_i h
    match n, h with
    | m + 1, _ =>
      rw [digitsAux,
        digitsAux_fuel m ((m + 1) / 10) ((m + 1) / 10) [(m + 1) % 10]
          (by
            have := Nat.div_lt_self (Nat.succ_pos m) (show 1 < 10 by decide)
            omega)
          le_rfl,
        digitsAux_acc ((m + 1) / 10) ((m + 1) / 10) [(m + 1) % 10] le_rfl]
      simp

theorem charDigit_digitChar {d : Nat} (h : d < 10) : charDigit (digitChar d) = some d := by
  interval_cases d <;> decide

theorem digitChar_ne_dash {d : Nat} (h : d < 10) : digitChar d ≠ '-' := by
  interval_cases d <;> decide

theorem parseDigits_map_digitChar {ds : List Nat} (h : ∀ d ∈ ds, d < 10) :
    parseDigits (ds.map digitChar) = some ds := by
  induction ds with
  | nil => rfl
  | cons d rest ih =>
    rw [List.map_cons, parseDigits,
      charDigit_digitChar (h d (List.mem_cons_self d rest)),
      ih (fun e he => h e (List.mem_cons_of_mem d he))]

theorem intToString_natCast (m : Nat) : intToString (m : Int) = natToString m := by
  rw [intToString, if_neg (by omega), Int.natAbs_ofNat]

/-- Concatenating the decimal strings of two naturals and reparsing yields
`a * 10 ^ (number of digits of u) + u` — the arithmetic content of the
numeric `merge` rule. -/
theorem jsNumberOfString_concat (a u : Nat) :
    jsNumberOfString (intToString (a : Int) ++ intToString (u : Int)) =
      .num ((a : Int) * 10 ^ (natDigits u).length + (u : Int)) := by
  obtain ⟨d0, ds, hds⟩ : ∃ d0 ds, natDigits a = d0 :: ds := by
    cases hnd : natDigits a with
    | nil => exact absurd hnd (natDigits_ne_nil a)
    | cons d0 ds => exact ⟨d0, ds, rfl⟩
  have hall : ∀ d ∈ natDigits a ++ natDigits u, d < 10 := by
    intro d hd
    rcases List.mem_append.mp hd with hmem | hmem
    · exact natDigits_lt_ten a d hmem
    · exact natDigits_lt_ten u d hmem
  have hd0 : d0 < 10 := natDigits_lt_ten a d0 (by rw [hds]; exact List.mem_cons_self d0 ds)
  have hdata : (intToString (a : Int) ++ intToString (u : Int)).data =
      digitChar d0 :: (ds.map digitChar ++ (natDigits u).map digitChar) := by
    rw [intToString_natCast, intToString_natCast, natToString, natToString]
    simp [hds]
  have hchars : digitChar d0 :: (ds.map digitChar ++ (natDigits u).map digitChar) =
      (natDigits a ++ natDigits u).map digitChar := by
    simp [hds]
  rw [jsNumberOfString, jsNumberParse, hdata]
  dsimp only
  rw [if_neg (digitChar_ne_dash hd0), parseNatChars, hchars,
    parseDigits_map_digitChar hall]
  simp only [Option.map_some', Option.bind_some, Option.bind_eq_bind, Option.pure_def]
  rw [ofDigits_append, ofDigits_natDigits, ofDigits_natDigits]
  show JSValue.num (((a * 10 ^ (natDigits u).length + u : Nat) : Int)) =
    JSValue.num ((a : Int) * 10 ^ (natDigits u).length + (u : Int))
  push_cast
  rfl

/-! ### LRU victim minimality -/

theorem findLRUAux_min (l : Store) : ∀ best : JSValue × Nat,
    (findLRUAux best l).2 ≤ best.2 ∧
      ∀ q ∈ l, (findLRUAux best l).2 ≤ effAccessTime q.2 := by
  induction l with
  | nil => intro best; exact ⟨le_rfl, by simp⟩
  | cons p rest ih =>
    intro best
    rw [findLRUAux]
    split
    · rename_i hlt
      obtain ⟨h1, h2⟩ := ih (p.1, effAccessTime p.2)
      refine ⟨le_trans h1 (le_of_lt hlt), ?_⟩
      intro q hq
      rcases List.mem_cons.mp hq with rfl | hmem
      · exact h1
      · exact h2 q hmem
    · rename_i hge
      obtain ⟨h1, h2⟩ := ih best
      refine ⟨h1, ?_⟩
      intro q hq
      rcases List.mem_cons.mp hq with rfl | hmem
      · exact le_trans h1 (not_lt.mp hge)
      · exact h2 q hmem

/-- `findLRUKey` returns the key of a stored entry whose effective access
time is minimal over the whole store. -/
theorem findLRUKey_min {st : Store} {k0 : JSValue} (h : findLRUKey st = some k0) :
    ∃ p ∈ st, p.1 = k0 ∧ ∀ q ∈ st, effAccessTime p.2 ≤ effAccessTime q.2 := by
  match st with
  | [] => exact absurd h (by simp [findLRUKey])
  | p :: rest =>
    rw [findLRUKey, Option.some.injEq] at h
    obtain ⟨h1, h2⟩ := findLRUAux_min rest (p.1, effAccessTime p.2)
    rcases findLRUAux_mem rest (p.1, effAccessTime p.2) with hb | ⟨q, hq, hr⟩
    · refine ⟨p, List.mem_cons_self p rest, by rw [← h, hb], ?_⟩
      intro w hw
      have hval : (findLRUAux (p.1, effAccessTime p.2) rest).2 = effAccessTime p.2 := by
        rw [hb]
      rcases List.mem_cons.mp hw with rfl | hmem
      · exact le_rfl
      · rw [← hval]
        exact h2 w hmem
    · refine ⟨q, List.mem_cons_of_mem p hq, by rw [← h, hr], ?_⟩
      intro w hw
      have hval : (findLRUAux (p.1, effAccessTime p.2) rest).2 = effAccessTime q.2 := by
        rw [hr]
      rcases List.mem_cons.mp hw with rfl | hmem
      · rw [← hval]; exact h1
      · rw [← hval]; exact h2 w hmem

/-! ## Claim theorems -/

/-- C9: For every storage map, the whole-store byte estimate equals the
sum of the per-entry estimates: `getCacheSizeInBytes storage` is exactly
the sum over all entries of `getEntrySize key value` — both paths carry
the same fixed `48 + 16` per-entry overhead, so the totals agree
exactly. -/
theorem claim9_whole_store_size_is_sum_of_entry_sizes (st : Store) :
    getCacheSizeInBytes st = (st.map (fun p => getEntrySize p.1 p.2.value)).sum := by
  have haux : ∀ (l : Store) (acc : Nat),
      l.foldl (fun acc p => acc + getSizeInBytes p.1 + 48 + getSizeInBytes p.2.value + 16)
          acc
        = acc + (l.map (fun p => getEntrySize p.1 p.2.value)).sum := by
    intro l
    induction l with
    | nil => intro acc; simp
    | cons p rest ih =>
      intro acc
      rw [List.foldl_cons, ih, List.map_cons, List.sum_cons, getEntrySize]
      ring
  rw [getCacheSizeInBytes, haux]
  simp

/-- C10: Each utility query — `size`, `sizeInBytes`, `keys`, `values`,
`entries`, `isEmpty` — first runs the expiry sweep (here: with TTL
configured); afterwards no expired entry remains in the store, and the
returned count, byte total or listing is computed from the swept store. -/
theorem claim10_utility_queries_sweep_first (cfg : Config) (st : Store) (now : Nat)
    (h : optTruthy cfg.ttl = true) :
    (∀ p ∈ (cleanupExpired cfg st now).2, isExpired p.2 now = false) ∧
    size cfg st now = ((cleanupExpired cfg st now).2.length, (cleanupExpired cfg st now).2) ∧
    sizeInBytes cfg st now =
      (getCacheSizeInBytes (cleanupExpired cfg st now).2, (cleanupExpired cfg st now).2) ∧
    keys cfg st now =
      ((cleanupExpired cfg st now).2.map (fun p => p.1), (cleanupExpired cfg st now).2) ∧
    values cfg st now =
      ((cleanupExpired cfg st now).2.map (fun p => p.2.value), (cleanupExpired cfg st now).2) ∧
    entries cfg st now =
      ((cleanupExpired cfg st now).2.map (fun p => (p.1, p.2.value)),
        (cleanupExpired cfg st now).2) ∧
    isEmpty cfg st now =
      (decide ((cleanupExpired cfg st now).2.length = 0), (cleanupExpired cfg st now).2) :=
  ⟨cleanupExpired_removes_expired h, rfl, rfl, rfl, rfl, rfl, rfl⟩

/-- Witness for C10 at a concrete cache: TTL 50, one live and one expired
entry at time 100; the sweep leaves only the live entry and `size`
reports 1. -/
theorem claim10_utility_queries_sweep_first_witness :
    optTruthy (some 50 : Option Nat) = true ∧
    (∀ p ∈ (cleanupExpired { maxEntries := none, maxBytes := none, ttl := some 50, evictionPolicy := EvictionPolicy.FIFO, autoDeleteAfterUse := false } [(JSValue.str ("dead"), { value := JSValue.num 1, createdAt := 0, expiresAt := some 50, lastAccessed := none }), (JSValue.str ("live"), { value := JSValue.num 2, createdAt := 90, expiresAt := some 140, lastAccessed := none })] 100).2, isExpired p.2 100 = false) ∧
    (size { maxEntries := none, maxBytes := none, ttl := some 50, evictionPolicy := EvictionPolicy.FIFO, autoDeleteAfterUse := false } [(JSValue.str ("dead"), { value := JSValue.num 1, createdAt := 0, expiresAt := some 50, lastAccessed := none }), (JSValue.str ("live"), { value := JSValue.num 2, createdAt := 90, expiresAt := some 140, lastAccessed := none })] 100).1 = 1 := by
  refine ⟨by decide, ?_, ?_⟩
  · exact (claim10_utility_queries_sweep_first _ _ 100 (by decide)).1
  · have h := claim10_utility_queries_sweep_first { maxEntries := none, maxBytes := none, ttl := some 50, evictionPolicy := EvictionPolicy.FIFO, autoDeleteAfterUse := false } [(JSValue.str ("dead"), { value := JSValue.num 1, createdAt := 0, expiresAt := some 50, lastAccessed := none }), (JSValue.str ("live"), { value := JSValue.num 2, createdAt := 90, expiresAt := some 140, lastAccessed := none })] 100 (by decide)
    rw [h.2.1]
    decide

/-! ### Small helper lemmas for the claims -/

/-- An entry freshly stamped by `set` is not expired at its own write
time. -/
theorem isExpired_fresh (ttl : Option Nat) (now : Nat) (e : CacheEntry)
    (h : e.expiresAt = ttlExpiry ttl now) : isExpired e now = false := by
  rw [isExpired, h]
  cases ttl with
  | none => rfl
  | some t =>
    simp only [ttlExpiry]
    split
    · rfl
    · rename_i t2 ht2
      rw [decide_eq_false_iff_not, not_and]
      intro _
      split at ht2
      · exact absurd ht2 (by simp)
      · injection ht2 with h3
        omega

theorem size_fst (cfg : Config) (st : Store) (now : Nat) :
    (size cfg st now).1 = (cleanupExpired cfg st now).2.length := rfl

theorem del_missing {st : Store} {key : JSValue} (h : alistLookup st key = none) :
    del st key = (false, st) := by
  rw [del, h, alistDelete_of_forall_ne (alistLookup_eq_none_iff.mp h)]
  rfl

theorem deleteMany_missing (st : Store) : ∀ ks : List JSValue,
    (∀ k ∈ ks, alistLookup st k = none) → deleteMany st ks = (0, st) := by
  have haux : ∀ (ks : List JSValue) (accn : Nat), (∀ k ∈ ks, alistLookup st k = none) →
      ks.foldl
        (fun acc k =>
          let r := del acc.2 k
          (acc.1 + (if r.1 then 1 else 0), r.2))
        (accn, st) = (accn, st) := by
    intro ks
    induction ks with
    | nil => intro accn _; rfl
    | cons k rest ih =>
      intro accn h
      rw [List.foldl_cons]
      have hk := del_missing (h k (List.mem_cons_self k rest))
      simp only [hk]
      have hstep := ih accn (fun q hq => h q (List.mem_cons_of_mem k hq))
      simpa using hstep
  intro ks h
  exact haux ks 0 h

/-- C1: With a byte budget configured, a `set` is never rejected: the key
is present with the new value afterwards; and inserting a new key whose
estimated cost alone exceeds the budget evicts every other entry first,
so the store — and `size()` — afterwards is exactly 1. -/
theorem claim1_byte_budget_write_never_rejected (cfg : Config) (st : Store)
    (key value : JSValue) (now b : Nat) (hb : cfg.maxBytes = some b) (hb0 : b ≠ 0) :
    (∃ e, alistLookup (set cfg st key value now) key = some e ∧ e.value = value) ∧
    ((∀ p ∈ st, p.1 ≠ key) → b < getEntrySize key value →
      (set cfg st key value now).length = 1 ∧
      (size cfg (set cfg st key value now) now).1 = 1) := by
  constructor
  · exact ⟨_, alistLookup_set_self cfg st key value now, rfl⟩
  · intro hnew hover
    have hsing := @set_oversized_singleton cfg st key value now b hb hb0 hnew hover
    rw [hsing]
    refine ⟨rfl, ?_⟩
    rw [size_fst]
    have hfresh : isExpired
        { value := value, createdAt := now,
          lastAccessed :=
            if cfg.evictionPolicy = EvictionPolicy.LRU then some now else none,
          expiresAt := ttlExpiry cfg.ttl now } now = false :=
      isExpired_fresh cfg.ttl now _ rfl
    by_cases hT : optTruthy cfg.ttl = true
    · rw [cleanupExpired, if_neg (by simp [hT])]
      simp [hfresh]
    · rw [cleanupExpired_no_ttl (by simpa using hT)]
      rfl

/-- Witness for C1: byte budget 10, FIFO; writing a new key whose entry
costs 74 bytes evicts the one existing entry and leaves a single-entry
store. -/
theorem claim1_byte_budget_write_never_rejected_witness :
    (∃ e, alistLookup (set { maxEntries := none, maxBytes := some 10, ttl := none, evictionPolicy := EvictionPolicy.FIFO, autoDeleteAfterUse := false } [(JSValue.str ("old"), { value := JSValue.num 1, createdAt := 0 })] (JSValue.str ("k")) (JSValue.num 5) 7) (JSValue.str ("k")) = some e ∧ e.value = JSValue.num 5) ∧
    (set { maxEntries := none, maxBytes := some 10, ttl := none, evictionPolicy := EvictionPolicy.FIFO, autoDeleteAfterUse := false } [(JSValue.str ("old"), { value := JSValue.num 1, createdAt := 0 })] (JSValue.str ("k")) (JSValue.num 5) 7).length = 1 ∧
    (size { maxEntries := none, maxBytes := some 10, ttl := none, evictionPolicy := EvictionPolicy.FIFO, autoDeleteAfterUse := false } (set { maxEntries := none, maxBytes := some 10, ttl := none, evictionPolicy := EvictionPolicy.FIFO, autoDeleteAfterUse := false } [(JSValue.str ("old"), { value := JSValue.num 1, createdAt := 0 })] (JSValue.str ("k")) (JSValue.num 5) 7) 7).1 = 1 := by
  have h := claim1_byte_budget_write_never_rejected
    { maxEntries := none, maxBytes := some 10, ttl := none, evictionPolicy := EvictionPolicy.FIFO, autoDeleteAfterUse := false }
    [(JSValue.str ("old"), { value := JSValue.num 1, createdAt := 0 })]
    (JSValue.str ("k")) (JSValue.num 5) 7 10 rfl (by decide)
  exact ⟨h.1, h.2 (by decide) (by decide)⟩

/-- C2: On an unexpired numeric entry, `merge` with a numeric update
stores and returns `Number(String(current) + String(updates))` — the
number obtained by concatenating the two decimal strings and reparsing —
which for naturals equals `current * 10 ^ digits(updates) + updates`. -/
theorem claim2_numeric_merge_concatenates_decimal (cfg : Config) (st : Store)
    (key : JSValue) (now : Nat) (opts : Option Bool) (a u : Int) (e : CacheEntry)
    (h : alistLookup st key = some e) (hval : e.value = .num a)
    (hx : isExpired e now = false) :
    (merge cfg st key (.num u) opts now).1 =
      some (jsNumberOfString (intToString a ++ intToString u)) ∧
    (∃ e2, alistLookup (merge cfg st key (.num u) opts now).2 key = some e2 ∧
      e2.value = jsNumberOfString (intToString a ++ intToString u)) ∧
    (∀ x y : Nat, jsNumberOfString (intToString (x : Int) ++ intToString (y : Int)) =
      .num ((x : Int) * 10 ^ (natDigits y).length + (y : Int))) := by
  have hget : (get cfg st key now).1 = some e.value := get_live_fst h hx
  have hm : merge cfg st key (.num u) opts now =
      (some (mergeValues e.value (.num u) (opts.getD false)),
        set cfg (get cfg st key now).2 key
          (mergeValues e.value (.num u) (opts.getD false)) now) := by
    rw [merge]
    simp only [hget]
  have hmv : mergeValues e.value (.num u) (opts.getD false) =
      jsNumberOfString (intToString a ++ intToString u) := by
    rw [hval]
    rfl
  refine ⟨?_, ?_, fun x y => jsNumberOfString_concat x y⟩
  · rw [hm, hmv]
  · rw [hm, hmv]
    exact ⟨_, alistLookup_set_self _ _ _ _ _, rfl⟩

/-- Witness for C2: merging the stored number 4 with the update 2 yields
42, not 6. -/
theorem claim2_numeric_merge_concatenates_decimal_witness :
    (merge { maxEntries := none, maxBytes := none, ttl := none, evictionPolicy := EvictionPolicy.FIFO, autoDeleteAfterUse := false } [(JSValue.str ("k"), { value := JSValue.num 4, createdAt := 0 })] (JSValue.str ("k")) (JSValue.num 2) none 5).1 = some (JSValue.num 42) ∧
    JSValue.num 42 ≠ JSValue.num 6 := by
  have h := claim2_numeric_merge_concatenates_decimal
    { maxEntries := none, maxBytes := none, ttl := none, evictionPolicy := EvictionPolicy.FIFO, autoDeleteAfterUse := false }
    [(JSValue.str ("k"), { value := JSValue.num 4, createdAt := 0 })]
    (JSValue.str ("k")) 5 none 4 2 { value := JSValue.num 4, createdAt := 0 }
    (by decide) rfl (by decide)
  refine ⟨?_, by decide⟩
  rw [h.1]
  decide

/-- C7: `peek` never mutates the cache — the store comes back untouched in
every branch, so an expired entry is neither removed nor has its metadata
stamped, and a live read through `peek` triggers no `lastAccessed` update
or auto-delete; whereas `get`, `has` and `getEntry` all remove an expired
entry as a side effect of reporting absence. -/
theorem claim7_peek_never_mutates (cfg : Config) (st : Store) (key : JSValue)
    (now : Nat) :
    (peek cfg st key now).2 = st ∧
    (∀ e, alistLookup st key = some e → isExpired e now = true →
      (peek cfg st key now).1 = none ∧
      get cfg st key now = (none, alistDelete st key) ∧
      has cfg st key now = (false, alistDelete st key) ∧
      getEntry cfg st key now = (none, alistDelete st key)) ∧
    (∀ e, alistLookup st key = some e → isExpired e now = false →
      (peek cfg st key now).1 = some e.value) := by
  refine ⟨peek_store_unchanged cfg st key now, ?_, ?_⟩
  · intro e h hx
    exact ⟨by simp [peek, h, hx], get_expired h hx, has_expired h hx,
      getEntry_expired h hx⟩
  · intro e h hx
    simp [peek, h, hx]

/-- Witness for C7: an entry expired at time 10 — `peek` reports absence
and leaves it in place, `get` removes it. -/
theorem claim7_peek_never_mutates_witness :
    (peek { maxEntries := none, maxBytes := none, ttl := some 5, evictionPolicy := EvictionPolicy.FIFO, autoDeleteAfterUse := false } [(JSValue.str ("k"), { value := JSValue.num 1, createdAt := 0, expiresAt := some 5 })] (JSValue.str ("k")) 10).2 = [(JSValue.str ("k"), { value := JSValue.num 1, createdAt := 0, expiresAt := some 5 })] ∧
    (peek { maxEntries := none, maxBytes := none, ttl := some 5, evictionPolicy := EvictionPolicy.FIFO, autoDeleteAfterUse := false } [(JSValue.str ("k"), { value := JSValue.num 1, createdAt := 0, expiresAt := some 5 })] (JSValue.str ("k")) 10).1 = none ∧
    get { maxEntries := none, maxBytes := none, ttl := some 5, evictionPolicy := EvictionPolicy.FIFO, autoDeleteAfterUse := false } [(JSValue.str ("k"), { value := JSValue.num 1, createdAt := 0, expiresAt := some 5 })] (JSValue.str ("k")) 10 = (none, []) := by
  have h := claim7_peek_never_mutates
    { maxEntries := none, maxBytes := none, ttl := some 5, evictionPolicy := EvictionPolicy.FIFO, autoDeleteAfterUse := false }
    [(JSValue.str ("k"), { value := JSValue.num 1, createdAt := 0, expiresAt := some 5 })]
    (JSValue.str ("k")) 10
  have h2 := h.2.1 { value := JSValue.num 1, createdAt := 0, expiresAt := some 5 }
    (by decide) (by decide)
  refine ⟨h.1, h2.1, ?_⟩
  rw [h2.2.1]
  decide

/-- C5 (amended): no operation throws for ordinary misses — on a missing
key every read reports absence, `delete` returns `false`, `deleteMany`
counts 0, and the mutation operators return absence leaving the store
unchanged; on an expired-but-unswept key the reads report absence, but
`delete` performs no expiry check and returns `true` (the physical entry
still existed), contrary to the original claim. -/
theorem claim5_missing_and_expired_keys (cfg : Config) (st : Store) (key : JSValue)
    (now : Nat) (f : JSValue → JSValue) (amount : Int) (items : List JSValue)
    (updates : JSValue) (opts : Option Bool) (ks : List JSValue) :
    (alistLookup st key = none →
      get cfg st key now = (none, st) ∧
      has cfg st key now = (false, st) ∧
      getEntry cfg st key now = (none, st) ∧
      peek cfg st key now = (none, st) ∧
      del st key = (false, st) ∧
      mutate cfg st key f now = (none, st) ∧
      increment cfg st key amount now = (none, st) ∧
      decrement cfg st key amount now = (none, st) ∧
      append cfg st key items now = (none, st) ∧
      merge cfg st key updates opts now = (none, st)) ∧
    (∀ e, alistLookup st key = some e → isExpired e now = true →
      (get cfg st key now).1 = none ∧
      (has cfg st key now).1 = false ∧
      (getEntry cfg st key now).1 = none ∧
      (peek cfg st key now).1 = none ∧
      (del st key).1 = true) ∧
    ((∀ k ∈ ks, alistLookup st k = none) → deleteMany st ks = (0, st)) := by
  refine ⟨?_, ?_, deleteMany_missing st ks⟩
  · intro hmiss
    refine ⟨get_missing hmiss, has_missing hmiss, getEntry_missing hmiss,
      by simp [peek, hmiss], del_missing hmiss, ?_, ?_, ?_, ?_, ?_⟩
    · simp [mutate, get_missing hmiss]
    · simp [increment, mutate, get_missing hmiss]
    · simp [decrement, mutate, get_missing hmiss]
    · simp [append, mutate, get_missing hmiss]
    · simp [merge, get_missing hmiss]
  · intro e h hx
    refine ⟨by rw [get_expired h hx], by rw [has_expired h hx],
      by rw [getEntry_expired h hx], by simp [peek, h, hx], ?_⟩
    rw [del, h]
    rfl

/-- Counterexample for C5 as frozen: an entry expired at time 10 is still
physically present, and `del` returns `true` for it, not `false`. -/
theorem claim5_counterexample_delete_expired_returns_true :
    isExpired { value := JSValue.num 1, createdAt := 0, expiresAt := some 5, lastAccessed := none } 10 = true ∧
    (del [(JSValue.str ("k"), { value := JSValue.num 1, createdAt := 0, expiresAt := some 5, lastAccessed := none })] (JSValue.str ("k"))).1 = true := by
  decide

/-- Witness for C5 at concrete inputs: a missing key on the empty store,
and an expired entry for the delete clause. -/
theorem claim5_missing_and_expired_keys_witness :
    (get { maxEntries := none, maxBytes := none, ttl := none, evictionPolicy := EvictionPolicy.FIFO, autoDeleteAfterUse := false } [] (JSValue.str ("k")) 5 = (none, ([] : Store))) ∧
    (mutate { maxEntries := none, maxBytes := none, ttl := none, evictionPolicy := EvictionPolicy.FIFO, autoDeleteAfterUse := false } [] (JSValue.str ("k")) (fun v => v) 5 = (none, ([] : Store))) ∧
    ((del [(JSValue.str ("x"), { value := JSValue.num 1, createdAt := 0, expiresAt := some 5 })] (JSValue.str ("x"))).1 = true) ∧
    (deleteMany [] [JSValue.str ("a"), JSValue.str ("b")] = (0, ([] : Store))) := by
  have h := claim5_missing_and_expired_keys
    { maxEntries := none, maxBytes := none, ttl := none, evictionPolicy := EvictionPolicy.FIFO, autoDeleteAfterUse := false }
    [] (JSValue.str ("k")) 5 (fun v => v) 1 [] (JSValue.num 0) none
    [JSValue.str ("a"), JSValue.str ("b")]
  have h2 := claim5_missing_and_expired_keys
    { maxEntries := none, maxBytes := none, ttl := none, evictionPolicy := EvictionPolicy.FIFO, autoDeleteAfterUse := false }
    [(JSValue.str ("x"), { value := JSValue.num 1, createdAt := 0, expiresAt := some 5 })]
    (JSValue.str ("x")) 10 (fun v => v) 1 [] (JSValue.num 0) none []
  have hm := h.1 rfl
  exact ⟨hm.1, hm.2.2.2.2.2.1,
    (h2.2.1 { value := JSValue.num 1, createdAt := 0, expiresAt := some 5 }
      (by decide) (by decide)).2.2.2.2,
    h.2.2 (by decide)⟩

/-! ### Key-uniqueness is preserved by `set` -/

theorem alistDelete_sublist {α β : Type} [DecidableEq α] (st : List (α × β)) (k : α) :
    List.Sublist (alistDelete st k) st := by
  induction st with
  | nil => exact List.Sublist.refl []
  | cons p rest ih =>
    rw [alistDelete]
    split
    · exact List.sublist_cons_self p rest
    · exact List.Sublist.cons₂ p ih

theorem byteEvictFuel_sublist (policy : EvictionPolicy) (maxB : Nat) (key : JSValue)
    (es : Nat) : ∀ (fuel : Nat) (st : Store),
    List.Sublist (byteEvictFuel policy maxB key es fuel st) st := by
  intro fuel
  induction fuel with
  | zero => intro st; exact List.Sublist.refl st
  | succ fuel ih =>
    intro st
    rw [byteEvictFuel]
    split
    · exact List.Sublist.refl st
    · split
      · exact List.Sublist.refl st
      · split
        · exact List.Sublist.refl st
        · rename_i keyToRemove _
          split
          · exact List.Sublist.refl st
          · exact List.Sublist.trans (ih (alistDelete st keyToRemove))
              (alistDelete_sublist st keyToRemove)

theorem countEvict_sublist (policy : EvictionPolicy) (maxEntries : Option Nat)
    (st : Store) (isNewKey : Bool) :
    List.Sublist (countEvict policy maxEntries st isNewKey) st := by
  rw [countEvict.eq_def]
  split
  · split
    · rename_i keyToRemove _
      exact alistDelete_sublist st keyToRemove
    · exact List.Sublist.refl st
  · exact List.Sublist.refl st

/-- A sublist of a store with unique keys has unique keys. -/
theorem nodup_keysOf_of_sublist {st1 st2 : Store} (hsub : List.Sublist st1 st2)
    (h : (keysOf st2).Nodup) : (keysOf st1).Nodup := by
  rw [keysOf] at h ⊢
  exact (hsub.map (fun p => p.1)).nodup h

/-- `set` preserves uniqueness of the stored keys (the JS `Map`
invariant). -/
theorem nodup_keysOf_set (cfg : Config) (st : Store) (key value : JSValue) (now : Nat)
    (h : (keysOf st).Nodup) : (keysOf (set cfg st key value now)).Nodup := by
  rw [set]
  apply nodup_keysOf_alistSet
  split
  · exact nodup_keysOf_of_sublist (byteEvictFuel_sublist cfg.evictionPolicy
      (cfg.maxBytes.getD 0) key (getEntrySize key value) st.length st) h
  · exact nodup_keysOf_of_sublist (countEvict_sublist cfg.evictionPolicy
      cfg.maxEntries st (alistLookup st key).isNone) h

/-- C3 (amended): with a TTL configured, a `set` followed by an immediate
`get` returns the value; once more than the TTL has elapsed, `get` and
`has` both report absence, and both remove the entry as a side effect, so
a `cleanup_expired` made while the expired entry is still present reports
it in its count (count ≥ 1), but a `cleanup_expired` made after those
reads finds the entry already gone (its key no longer resolves); and
`cleanup_expired` returns 0 whenever TTL is unset. -/
theorem claim3_ttl_expiry_and_sweep (cfg : Config) (st : Store) (k v : JSValue)
    (t0 T t1 : Nat) (hT : cfg.ttl = some T) (hT0 : T ≠ 0)
    (hnodup : (keysOf st).Nodup) (ht1 : t0 + T < t1) :
    (get cfg (set cfg st k v t0) k t0).1 = some v ∧
    (get cfg (set cfg st k v t0) k t1).1 = none ∧
    (has cfg (set cfg st k v t0) k t1).1 = false ∧
    1 ≤ (cleanupExpired cfg (set cfg st k v t0) t1).1 ∧
    alistLookup ((get cfg (set cfg st k v t0) k t1).2) k = none ∧
    (∀ (cfg2 : Config) (st2 : Store) (now2 : Nat), optTruthy cfg2.ttl = false →
      cleanupExpired cfg2 st2 now2 = (0, st2)) := by
  obtain ⟨efresh, hlook, hval, hexpAtE⟩ : ∃ e, alistLookup (set cfg st k v t0) k = some e ∧
      e.value = v ∧ e.expiresAt = some (t0 + T) := by
    refine ⟨_, alistLookup_set_self cfg st k v t0, rfl, ?_⟩
    show ttlExpiry cfg.ttl t0 = some (t0 + T)
    rw [hT, ttlExpiry]
    simp [hT0]
  have hfresh : isExpired efresh t0 = false := by
    rw [isExpired, hexpAtE]
    simp only [decide_eq_false_iff_not, not_and]
    omega
  have hexp1 : isExpired efresh t1 = true := by
    rw [isExpired, hexpAtE]
    simp only [decide_eq_true_eq]
    omega
  have hTtruthy : optTruthy cfg.ttl = true := by
    rw [hT, optTruthy]
    simpa using hT0
  refine ⟨?_, ?_, ?_, ?_, ?_, fun cfg2 st2 now2 h2 => cleanupExpired_no_ttl h2⟩
  · rw [get_live_fst hlook hfresh, hval]
  · rw [get_expired hlook hexp1]
  · rw [has_expired hlook hexp1]
  · rw [cleanupExpired_count hTtruthy]
    have hmemf : (k, efresh) ∈
        (set cfg st k v t0).filter (fun p => isExpired p.2 t1) :=
      List.mem_filter.mpr ⟨mem_of_alistLookup_eq_some hlook, by simpa using hexp1⟩
    exact List.length_pos.mpr (List.ne_nil_of_mem hmemf)
  · rw [get_expired hlook hexp1]
    exact alistLookup_alistDelete_self (nodup_keysOf_set cfg st k v t0 hnodup)

/-- Counterexample for C3 as frozen: after the expired `get` and `has`
reads have lazily removed the entry, a subsequent `cleanup_expired`
returns 0 — it cannot report the already-removed entry in its count. -/
theorem claim3_counterexample_cleanup_after_reads_counts_zero :
    (get { maxEntries := none, maxBytes := none, ttl := some 100, evictionPolicy := EvictionPolicy.FIFO, autoDeleteAfterUse := false } (set { maxEntries := none, maxBytes := none, ttl := some 100, evictionPolicy := EvictionPolicy.FIFO, autoDeleteAfterUse := false } [] (JSValue.str ("k")) (JSValue.num 1) 0) (JSValue.str ("k")) 101).1 = none ∧
    (has { maxEntries := none, maxBytes := none, ttl := some 100, evictionPolicy := EvictionPolicy.FIFO, autoDeleteAfterUse := false } ((get { maxEntries := none, maxBytes := none, ttl := some 100, evictionPolicy := EvictionPolicy.FIFO, autoDeleteAfterUse := false } (set { maxEntries := none, maxBytes := none, ttl := some 100, evictionPolicy := EvictionPolicy.FIFO, autoDeleteAfterUse := false } [] (JSValue.str ("k")) (JSValue.num 1) 0) (JSValue.str ("k")) 101).2) (JSValue.str ("k")) 101).1 = false ∧
    (cleanupExpired { maxEntries := none, maxBytes := none, ttl := some 100, evictionPolicy := EvictionPolicy.FIFO, autoDeleteAfterUse := false } ((has { maxEntries := none, maxBytes := none, ttl := some 100, evictionPolicy := EvictionPolicy.FIFO, autoDeleteAfterUse := false } ((get { maxEntries := none, maxBytes := none, ttl := some 100, evictionPolicy := EvictionPolicy.FIFO, autoDeleteAfterUse := false } (set { maxEntries := none, maxBytes := none, ttl := some 100, evictionPolicy := EvictionPolicy.FIFO, autoDeleteAfterUse := false } [] (JSValue.str ("k")) (JSValue.num 1) 0) (JSValue.str ("k")) 101).2) (JSValue.str ("k")) 101).2) 101).1 = 0 := by
  decide

/-- Witness for C3 at a concrete cache: TTL 100, write at 0, reads at
101. -/
theorem claim3_ttl_expiry_and_sweep_witness :
    (get { maxEntries := none, maxBytes := none, ttl := some 100, evictionPolicy := EvictionPolicy.FIFO, autoDeleteAfterUse := false } (set { maxEntries := none, maxBytes := none, ttl := some 100, evictionPolicy := EvictionPolicy.FIFO, autoDeleteAfterUse := false } [] (JSValue.str ("k")) (JSValue.num 1) 0) (JSValue.str ("k")) 0).1 = some (JSValue.num 1) ∧
    (get { maxEntries := none, maxBytes := none, ttl := some 100, evictionPolicy := EvictionPolicy.FIFO, autoDeleteAfterUse := false } (set { maxEntries := none, maxBytes := none, ttl := some 100, evictionPolicy := EvictionPolicy.FIFO, autoDeleteAfterUse := false } [] (JSValue.str ("k")) (JSValue.num 1) 0) (JSValue.str ("k")) 101).1 = none ∧
    1 ≤ (cleanupExpired { maxEntries := none, maxBytes := none, ttl := some 100, evictionPolicy := EvictionPolicy.FIFO, autoDeleteAfterUse := false } (set { maxEntries := none, maxBytes := none, ttl := some 100, evictionPolicy := EvictionPolicy.FIFO, autoDeleteAfterUse := false } [] (JSValue.str ("k")) (JSValue.num 1) 0) 101).1 := by
  have h := claim3_ttl_expiry_and_sweep
    { maxEntries := none, maxBytes := none, ttl := some 100, evictionPolicy := EvictionPolicy.FIFO, autoDeleteAfterUse := false }
    [] (JSValue.str ("k")) (JSValue.num 1) 0 100 101 rfl (by decide) (by decide) (by decide)
  exact ⟨h.1, h.2.1, h.2.2.2.1⟩

/-- C4 (amended): under LRU the victim `findLRUKey` selects is an entry
with minimal effective access time (`last_accessed` if set, else
`created_at`) over the whole store — including the key being written when
it is already present — and the written key itself is never actually
evicted: after `set` it is present with the new value.  (When the written
key is the selected candidate in the byte-bounded loop, eviction stops
instead of choosing another victim; see the counterexample.) -/
theorem claim4_lru_victim_selection_amended :
    (∀ (st : Store) (k0 : JSValue), findLRUKey st = some k0 →
      ∃ p ∈ st, p.1 = k0 ∧ ∀ q ∈ st, effAccessTime p.2 ≤ effAccessTime q.2) ∧
    (∀ (cfg : Config) (st : Store) (key value : JSValue) (now : Nat),
      cfg.evictionPolicy = EvictionPolicy.LRU →
      ∃ e, alistLookup (set cfg st key value now) key = some e ∧ e.value = value) :=
  ⟨fun _ _ h => findLRUKey_min h,
   fun cfg st key value now _ => ⟨_, alistLookup_set_self cfg st key value now, rfl⟩⟩

/-- Counterexample for C4 as frozen: byte-bounded LRU, overwriting the key
that is itself the least-recently-used entry.  Eviction is required (the
store is over budget), another candidate (`"b"`) exists, yet after the
`set` nothing was evicted: `"b"` survives and the store is still over
budget — because `findLRUKey` did consider the written key and the loop
stopped on selecting it, instead of never considering it. -/
theorem claim4_counterexample_written_key_considered :
    100 < getCacheSizeInBytes [(JSValue.str ("a"), { value := JSValue.num 0, createdAt := 0, expiresAt := none, lastAccessed := some 1 }), (JSValue.str ("b"), { value := JSValue.num 0, createdAt := 0, expiresAt := none, lastAccessed := some 2 })] + getEntrySize (JSValue.str ("a")) (JSValue.num 1) ∧
    findLRUKey [(JSValue.str ("a"), { value := JSValue.num 0, createdAt := 0, expiresAt := none, lastAccessed := some 1 }), (JSValue.str ("b"), { value := JSValue.num 0, createdAt := 0, expiresAt := none, lastAccessed := some 2 })] = some (JSValue.str ("a")) ∧
    (alistLookup (set { maxEntries := none, maxBytes := some 100, ttl := none, evictionPolicy := EvictionPolicy.LRU, autoDeleteAfterUse := false } [(JSValue.str ("a"), { value := JSValue.num 0, createdAt := 0, expiresAt := none, lastAccessed := some 1 }), (JSValue.str ("b"), { value := JSValue.num 0, createdAt := 0, expiresAt := none, lastAccessed := some 2 })] (JSValue.str ("a")) (JSValue.num 1) 5) (JSValue.str ("b"))).isSome = true ∧
    100 < getCacheSizeInBytes (set { maxEntries := none, maxBytes := some 100, ttl := none, evictionPolicy := EvictionPolicy.LRU, autoDeleteAfterUse := false } [(JSValue.str ("a"), { value := JSValue.num 0, createdAt := 0, expiresAt := none, lastAccessed := some 1 }), (JSValue.str ("b"), { value := JSValue.num 0, createdAt := 0, expiresAt := none, lastAccessed := some 2 })] (JSValue.str ("a")) (JSValue.num 1) 5) := by
  decide

/-- Witness for C4: the LRU minimum of a concrete two-entry store, and
survival of a written key under LRU. -/
theorem claim4_lru_victim_selection_amended_witness :
    (∃ p ∈ ([(JSValue.str ("a"), { value := JSValue.num 0, createdAt := 0, expiresAt := none, lastAccessed := some 1 }), (JSValue.str ("b"), { value := JSValue.num 0, createdAt := 0, expiresAt := none, lastAccessed := some 2 })] : Store), p.1 = JSValue.str ("a") ∧ ∀ q ∈ ([(JSValue.str ("a"), { value := JSValue.num 0, createdAt := 0, expiresAt := none, lastAccessed := some 1 }), (JSValue.str ("b"), { value := JSValue.num 0, createdAt := 0, expiresAt := none, lastAccessed := some 2 })] : Store), effAccessTime p.2 ≤ effAccessTime q.2) ∧
    (∃ e, alistLookup (set { maxEntries := none, maxBytes := some 100, ttl := none, evictionPolicy := EvictionPolicy.LRU, autoDeleteAfterUse := false } [(JSValue.str ("a"), { value := JSValue.num 0, createdAt := 0, expiresAt := none, lastAccessed := some 1 }), (JSValue.str ("b"), { value := JSValue.num 0, createdAt := 0, expiresAt := none, lastAccessed := some 2 })] (JSValue.str ("a")) (JSValue.num 1) 5) (JSValue.str ("a")) = some e ∧ e.value = JSValue.num 1) := by
  refine ⟨claim4_lru_victim_selection_amended.1 _ (JSValue.str ("a")) (by decide), ?_⟩
  exact claim4_lru_victim_selection_amended.2
    { maxEntries := none, maxBytes := some 100, ttl := none, evictionPolicy := EvictionPolicy.LRU, autoDeleteAfterUse := false }
    [(JSValue.str ("a"), { value := JSValue.num 0, createdAt := 0, expiresAt := none, lastAccessed := some 1 }), (JSValue.str ("b"), { value := JSValue.num 0, createdAt := 0, expiresAt := none, lastAccessed := some 2 })]
    (JSValue.str ("a")) (JSValue.num 1) 5 rfl

/-- C6 (amended): on an unexpired array-valued entry, `merge` with an
array update stores and returns the plain concatenation when duplicates
are allowed, and otherwise the concatenation deduplicated by the stringy
dedup key the source computes (`String(item)` for primitives,
`JSON.stringify` for objects) — not by value identity, see the
counterexample; and the per-call `allowDuplicates` option takes
precedence over the instance-level default. -/
theorem claim6_array_merge_dedup_and_precedence (cfg : Config) (st : Store)
    (key : JSValue) (now : Nat) (xs ys : List JSValue) (e : CacheEntry)
    (h : alistLookup st key = some e) (hval : e.value = .arr xs)
    (hx : isExpired e now = false) :
    (merge cfg st key (.arr ys) (some true) now).1 = some (.arr (xs ++ ys)) ∧
    (merge cfg st key (.arr ys) (some false) now).1 =
      some (.arr (dedupPass [] (xs ++ ys))) ∧
    (∃ e2, alistLookup (merge cfg st key (.arr ys) (some false) now).2 key = some e2 ∧
      e2.value = .arr (dedupPass [] (xs ++ ys))) ∧
    (∀ (b : Bool) (instanceDefault : Option Bool),
      resolveAllowDuplicates (some b) instanceDefault = b) ∧
    (∀ (instanceDefault perCall : Option Bool) (updates : JSValue),
      cacheMerge cfg instanceDefault st key updates perCall now =
        merge cfg st key updates
          (some (resolveAllowDuplicates perCall instanceDefault)) now) := by
  have hget : (get cfg st key now).1 = some e.value := get_live_fst h hx
  have hm : ∀ o : Option Bool, merge cfg st key (.arr ys) o now =
      (some (mergeValues e.value (.arr ys) (o.getD false)),
        set cfg (get cfg st key now).2 key
          (mergeValues e.value (.arr ys) (o.getD false)) now) := by
    intro o
    rw [merge]
    simp only [hget]
  refine ⟨?_, ?_, ?_, fun b instanceDefault => rfl,
    fun instanceDefault perCall updates => rfl⟩
  · rw [hm (some true), hval]
    rfl
  · rw [hm (some false), hval]
    rfl
  · rw [hm (some false), hval]
    exact ⟨_, alistLookup_set_self _ _ _ _ _, rfl⟩

/-- Counterexample for C6 as frozen: the source deduplicates by string
rendering, so merging the stored array `[1]` with `["1"]` without
duplicate allowance drops the string `"1"` — a value not equal to the
number `1` — whereas dedup by value identity keeps both. -/
theorem claim6_counterexample_dedup_conflates_number_and_string :
    (merge { maxEntries := none, maxBytes := none, ttl := none, evictionPolicy := EvictionPolicy.FIFO, autoDeleteAfterUse := false } [(JSValue.str ("k"), { value := JSValue.arr [JSValue.num 1], createdAt := 0 })] (JSValue.str ("k")) (JSValue.arr [JSValue.str ("1")]) (some false) 5).1 = some (JSValue.arr [JSValue.num 1]) ∧
    dedupByValueSpec ([JSValue.num 1] ++ [JSValue.str ("1")]) =
      [JSValue.num 1, JSValue.str ("1")] ∧
    JSValue.arr [JSValue.num 1] ≠ JSValue.arr [JSValue.num 1, JSValue.str ("1")] := by
  decide

/-- Witness for C6: merging `[1,2,3]` with `[3,4,5]` yields `[1,2,3,4,5]`
without duplicate allowance and `[1,2,3,3,4,5]` with it, and a per-call
`false` overrides an instance-level `true`. -/
theorem claim6_array_merge_dedup_and_precedence_witness :
    (merge { maxEntries := none, maxBytes := none, ttl := none, evictionPolicy := EvictionPolicy.FIFO, autoDeleteAfterUse := false } [(JSValue.str ("k"), { value := JSValue.arr [JSValue.num 1, JSValue.num 2, JSValue.num 3], createdAt := 0 })] (JSValue.str ("k")) (JSValue.arr [JSValue.num 3, JSValue.num 4, JSValue.num 5]) (some false) 5).1 = some (JSValue.arr [JSValue.num 1, JSValue.num 2, JSValue.num 3, JSValue.num 4, JSValue.num 5]) ∧
    (merge { maxEntries := none, maxBytes := none, ttl := none, evictionPolicy := EvictionPolicy.FIFO, autoDeleteAfterUse := false } [(JSValue.str ("k"), { value := JSValue.arr [JSValue.num 1, JSValue.num 2, JSValue.num 3], createdAt := 0 })] (JSValue.str ("k")) (JSValue.arr [JSValue.num 3, JSValue.num 4, JSValue.num 5]) (some true) 5).1 = some (JSValue.arr [JSValue.num 1, JSValue.num 2, JSValue.num 3, JSValue.num 3, JSValue.num 4, JSValue.num 5]) ∧
    resolveAllowDuplicates (some false) (some true) = false := by
  have h := claim6_array_merge_dedup_and_precedence
    { maxEntries := none, maxBytes := none, ttl := none, evictionPolicy := EvictionPolicy.FIFO, autoDeleteAfterUse := false }
    [(JSValue.str ("k"), { value := JSValue.arr [JSValue.num 1, JSValue.num 2, JSValue.num 3], createdAt := 0 })]
    (JSValue.str ("k")) 5 [JSValue.num 1, JSValue.num 2, JSValue.num 3]
    [JSValue.num 3, JSValue.num 4, JSValue.num 5]
    { value := JSValue.arr [JSValue.num 1, JSValue.num 2, JSValue.num 3], createdAt := 0 }
    (by decide) rfl (by decide)
  refine ⟨?_, ?_, h.2.2.2.1 false (some true)⟩
  · rw [h.2.1]
    decide
  · rw [h.1]
    decide

/-! ### C8: destroy and the registry -/

/-- Subsequent `Cache.set` calls change only the storage: the cleanup
timer handle and the registry are untouched. -/
theorem cacheSets_frame (cfg : Config) : ∀ (writes : List (JSValue × JSValue × Nat))
    (s : CacheState) (r : RegistryState),
    (cacheSets cfg (s, r) writes).1.cleanupTimer = s.cleanupTimer ∧
    (cacheSets cfg (s, r) writes).1.eventListeners = s.eventListeners ∧
    (cacheSets cfg (s, r) writes).2 = r := by
  intro writes
  induction writes with
  | nil => intro s r; exact ⟨rfl, rfl, rfl⟩
  | cons w rest ih =>
    intro s r
    rw [cacheSets, List.foldl_cons]
    exact ih { s with storage := set cfg s.storage w.1 w.2.1 w.2.2 } r

/-- C8: `destroy` stops the cleanup timer, empties the store, clears the
event listeners and unregisters the instance, so the registry's instance
count decreases by exactly one (for a registered instance, whose key is
unique in the registry map); and after `destroy`, any sequence of further
`set` calls leaves the timer stopped and the registry unchanged — nothing
restarts a sweep or re-registers the instance. -/
theorem claim8_destroy_unregisters_and_set_does_not_resurrect (cfg : Config)
    (s : CacheState) (r : RegistryState) (selfId : Nat)
    (hreg : (alistLookup r.instanceInfo selfId).isSome)
    (hnodup : (keysOf r.instanceInfo).Nodup) :
    (destroy s r selfId).1.cleanupTimer = none ∧
    (destroy s r selfId).1.storage = [] ∧
    (destroy s r selfId).1.eventListeners = [] ∧
    getInstanceCount (destroy s r selfId).2 + 1 = getInstanceCount r ∧
    alistLookup (destroy s r selfId).2.instanceInfo selfId = none ∧
    (∀ writes : List (JSValue × JSValue × Nat),
      (cacheSets cfg (destroy s r selfId) writes).1.cleanupTimer = none ∧
      (cacheSets cfg (destroy s r selfId) writes).2 = (destroy s r selfId).2) := by
  refine ⟨rfl, rfl, rfl, ?_, ?_, ?_⟩
  · exact length_alistDelete_of_isSome hreg
  · exact alistLookup_alistDelete_self hnodup
  · intro writes
    have hf := cacheSets_frame cfg writes (destroy s r selfId).1 (destroy s r selfId).2
    exact ⟨hf.1, hf.2.2⟩

/-- Witness for C8: a registry holding two instances; destroying instance
1 leaves a count of 1, and a subsequent write keeps the timer stopped and
the registry untouched. -/
theorem claim8_destroy_unregisters_and_set_does_not_resurrect_witness :
    (destroy { storage := [(JSValue.str ("k"), { value := JSValue.num 1, createdAt := 0 })], cleanupTimer := some 7, eventListeners := [3] } { instanceInfo := [(1, { createdAt := 0, lastSizeCheck := 0 }), (2, { createdAt := 0, lastSizeCheck := 0 })] } 1).1.cleanupTimer = none ∧
    getInstanceCount (destroy { storage := [(JSValue.str ("k"), { value := JSValue.num 1, createdAt := 0 })], cleanupTimer := some 7, eventListeners := [3] } { instanceInfo := [(1, { createdAt := 0, lastSizeCheck := 0 }), (2, { createdAt := 0, lastSizeCheck := 0 })] } 1).2 + 1 = getInstanceCount { instanceInfo := [(1, { createdAt := 0, lastSizeCheck := 0 }), (2, { createdAt := 0, lastSizeCheck := 0 })] } ∧
    (cacheSets { maxEntries := none, maxBytes := none, ttl := some 100, evictionPolicy := EvictionPolicy.FIFO, autoDeleteAfterUse := false } (destroy { storage := [(JSValue.str ("k"), { value := JSValue.num 1, createdAt := 0 })], cleanupTimer := some 7, eventListeners := [3] } { instanceInfo := [(1, { createdAt := 0, lastSizeCheck := 0 }), (2, { createdAt := 0, lastSizeCheck := 0 })] } 1) [(JSValue.str ("x"), JSValue.num 9, 50)]).1.cleanupTimer = none := by
  have h := claim8_destroy_unregisters_and_set_does_not_resurrect
    { maxEntries := none, maxBytes := none, ttl := some 100, evictionPolicy := EvictionPolicy.FIFO, autoDeleteAfterUse := false }
    { storage := [(JSValue.str ("k"), { value := JSValue.num 1, createdAt := 0 })], cleanupTimer := some 7, eventListeners := [3] }
    { instanceInfo := [(1, { createdAt := 0, lastSizeCheck := 0 }), (2, { createdAt := 0, lastSizeCheck := 0 })] }
    1 (by decide) (by decide)
  exact ⟨h.1, h.2.2.2.1, (h.2.2.2.2.2 [(JSValue.str ("x"), JSValue.num 9, 50)]).1⟩

end AnotherCache
